import Mathlib

/-!
Verification of the kanban server's ordered-collection reordering engine
(src/server.js). The relational rows (lists, cards) are embedded as Lean
structures, the SQL statements of each route as pure functions on a DB
state, and the begin/commit/rollback wrappers as transactional runs that
either apply every sub-step or restore the original state.
-/

namespace Kanban

/-- Decidable equality for Except, so concrete runs can be settled by decide. -/
instance exceptDecEq {α β : Type} [DecidableEq α] [DecidableEq β] :
    DecidableEq (Except α β) := fun a b =>
  match a, b with
  | .ok x, .ok y =>
    if h : x = y then .isTrue (by rw [h]) else .isFalse (by intro hh; cases hh; exact h rfl)
  | .ok _, .error _ => .isFalse (by intro hh; cases hh)
  | .error _, .ok _ => .isFalse (by intro hh; cases hh)
  | .error x, .error y =>
    if h : x = y then .isTrue (by rw [h]) else .isFalse (by intro hh; cases hh; exact h rfl)

/-- A row of the cards table (CREATE TABLE cards in src/server.js). -/
structure Card where
  id : Nat
  list_id : Nat
  title : String
  description : String
  position : Int
  priority : String
  due_date : Option String
  deriving DecidableEq

/-- A row of the lists table (CREATE TABLE lists in src/server.js). -/
structure KList where
  id : Nat
  board_id : Nat
  title : String
  position : Int
  deriving DecidableEq

/-- The persisted store: the two tables plus the AUTO_INCREMENT counters. -/
structure DB where
  lists : List KList
  cards : List Card
  nextListId : Nat
  nextCardId : Nat
  deriving DecidableEq

/-- SELECT * FROM cards WHERE list_id = lid (in table order). -/
def cardsInList (db : DB) (lid : Nat) : List Card :=
  db.cards.filter (fun c => c.list_id == lid)

/-- The positions of the cards of one list, in table order. -/
def cardPositions (db : DB) (lid : Nat) : List Int :=
  (cardsInList db lid).map (fun c => c.position)

/-- SELECT * FROM lists WHERE board_id = bid (in table order). -/
def listsInBoard (db : DB) (bid : Nat) : List KList :=
  db.lists.filter (fun l => l.board_id == bid)

/-- The positions of the lists of one board, in table order. -/
def listPositions (db : DB) (bid : Nat) : List Int :=
  (listsInBoard db bid).map (fun l => l.position)

/-- Whether a row of the lists table carries the given id (the check the
cards.list_id foreign key enforces). -/
def listExists (db : DB) (lid : Nat) : Bool :=
  db.lists.any (fun l => l.id == lid)

/-- UPDATE cards SET position = position - 1
    WHERE list_id = lid AND position > p AND position <= t. -/
def shiftDownBetween (db : DB) (lid : Nat) (p t : Int) : DB :=
  { db with cards := db.cards.map (fun c =>
      if c.list_id = lid ∧ p < c.position ∧ c.position ≤ t then
        { c with position := c.position - 1 } else c) }

/-- UPDATE cards SET position = position + 1
    WHERE list_id = lid AND position >= t AND position < p. -/
def shiftUpBetween (db : DB) (lid : Nat) (t p : Int) : DB :=
  { db with cards := db.cards.map (fun c =>
      if c.list_id = lid ∧ t ≤ c.position ∧ c.position < p then
        { c with position := c.position + 1 } else c) }

/-- UPDATE cards SET position = position - 1 WHERE list_id = lid AND position > p. -/
def closeGap (db : DB) (lid : Nat) (p : Int) : DB :=
  { db with cards := db.cards.map (fun c =>
      if c.list_id = lid ∧ p < c.position then
        { c with position := c.position - 1 } else c) }

/-- UPDATE cards SET position = position + 1 WHERE list_id = lid AND position >= t. -/
def openSlot (db : DB) (lid : Nat) (t : Int) : DB :=
  { db with cards := db.cards.map (fun c =>
      if c.list_id = lid ∧ t ≤ c.position then
        { c with position := c.position + 1 } else c) }

/-- UPDATE cards SET list_id = lid, position = pos WHERE id = cid. -/
def setCard (db : DB) (cid lid : Nat) (pos : Int) : DB :=
  { db with cards := db.cards.map (fun c =>
      if c.id = cid then { c with list_id := lid, position := pos } else c) }

/-- The final UPDATE of the move route: it fails (foreign-key violation,
surfaced as a 500 store error) when the target list id resolves to no row. -/
def finishMove (work : DB) (cid lid : Nat) (pos : Int) : Except Nat DB :=
  if listExists work lid then .ok (setCard work cid lid pos) else .error 500

/-- PUT /api/cards/:id/move, success path semantics: read the card, branch on
same-list versus cross-list, run the bounded shifts, then write the card. -/
def moveCard (db : DB) (cid lid : Nat) (pos : Int) : Except Nat DB :=
  match db.cards.find? (fun c => c.id == cid) with
  | none => .error 404
  | some c =>
    if c.list_id = lid then
      if c.position < pos then
        finishMove (shiftDownBetween db lid c.position pos) cid lid pos
      else if pos < c.position then
        finishMove (shiftUpBetween db lid pos c.position) cid lid pos
      else .ok db
    else
      finishMove (openSlot (closeGap db c.list_id c.position) lid pos) cid lid pos

/-- Outcome of one transactional route run: the state left in the store and
the HTTP response (ok, or an error status). -/
structure TxResult where
  persisted : DB
  response : Except Nat Unit
  deriving DecidableEq

/-- The fail oracle that lets every sub-step succeed. -/
def noFail : Nat → Bool := fun _ => false

/-- Tail of the move transaction: the final UPDATE (step 4, including the
foreign-key check) and COMMIT (step 5); every failure rolls back to orig. -/
def finishMoveTx (orig work : DB) (cid lid : Nat) (pos : Int) (fail : Nat → Bool) : TxResult :=
  if fail 4 then ⟨orig, .error 500⟩
  else if listExists work lid then
    if fail 5 then ⟨orig, .error 500⟩
    else ⟨setCard work cid lid pos, .ok ()⟩
  else ⟨orig, .error 500⟩

/-- PUT /api/cards/:id/move as the source runs it: BEGIN (0), SELECT the card
(1), the bounded shift UPDATEs (2 and, cross-list, 3), the card UPDATE (4) and
COMMIT (5); each db.query error branch calls rollback and answers 500, a
missing card rolls back and answers 404. -/
def moveCardTx (db : DB) (cid lid : Nat) (pos : Int) (fail : Nat → Bool) : TxResult :=
  if fail 0 then ⟨db, .error 500⟩
  else if fail 1 then ⟨db, .error 500⟩
  else match db.cards.find? (fun c => c.id == cid) with
  | none => ⟨db, .error 404⟩
  | some c =>
    if c.list_id = lid then
      if c.position < pos then
        if fail 2 then ⟨db, .error 500⟩
        else finishMoveTx db (shiftDownBetween db lid c.position pos) cid lid pos fail
      else if pos < c.position then
        if fail 2 then ⟨db, .error 500⟩
        else finishMoveTx db (shiftUpBetween db lid pos c.position) cid lid pos fail
      else
        if fail 5 then ⟨db, .error 500⟩ else ⟨db, .ok ()⟩
    else
      if fail 2 then ⟨db, .error 500⟩
      else if fail 3 then ⟨db, .error 500⟩
      else finishMoveTx db (openSlot (closeGap db c.list_id c.position) lid pos) cid lid pos fail

/-- First index of the row with the given id, mirroring that each UPDATE of
the reorder route addresses rows by primary key. -/
def idxOf (i : Nat) : List KList → Option Nat
  | [] => none
  | l :: ls => if l.id = i then some 0 else (idxOf i ls).map (fun k => k + 1)

/-- Effect of the batch of UPDATE lists SET position = index WHERE id = row.id
statements on one row: a row whose id occurs in seq gets its index there. -/
def seqUpd (seq : List KList) (l : KList) : KList :=
  match idxOf l.id seq with
  | some k => { l with position := (k : Int) }
  | none => l

/-- One UPDATE lists SET position = index WHERE id = row.id per row of seq. -/
def applySeq (ls : List KList) (seq : List KList) : List KList :=
  ls.map (seqUpd seq)

/-- Insertion of one row into a sorted prefix (helper of sortByPos). -/
def insPos (x : KList) : List KList → List KList
  | [] => [x]
  | y :: ys => if x.position ≤ y.position then x :: y :: ys else y :: insPos x ys

/-- ORDER BY position (insertion sort; only the multiset of rows matters). -/
def sortByPos : List KList → List KList
  | [] => []
  | x :: xs => insPos x (sortByPos xs)

/-- Index normalisation of JavaScript Array.prototype.splice: negative start
counts from the end and clamps at 0, a start past the end clamps to the end. -/
def spliceIndex (len : Nat) (pos : Int) : Nat :=
  if pos < 0 then ((len : Int) + pos).toNat else min pos.toNat len

/-- Insert an element at a (pre-normalised) index. -/
def insertAt (k : Nat) (x : KList) (l : List KList) : List KList :=
  match k, l with
  | 0, l => x :: l
  | _ + 1, [] => [x]
  | k + 1, y :: ys => y :: insertAt k x ys

/-- The in-memory resequencing of PUT /api/lists/:id/reorder: load the board's
lists ordered by position, drop the moved list, splice it back in at the
requested position, and rewrite every position to its index in that sequence. -/
def reorderedLists (db : DB) (cur : KList) (pos : Int) : List KList :=
  let allLists := sortByPos (listsInBoard db cur.board_id)
  let others := allLists.filter (fun l => l.id != cur.id)
  applySeq db.lists (insertAt (spliceIndex others.length pos) cur others)

/-- PUT /api/lists/:id/reorder, success path semantics. -/
def reorderList (db : DB) (lid : Nat) (pos : Int) : Except Nat DB :=
  match db.lists.find? (fun l => l.id == lid) with
  | none => .error 404
  | some cur => .ok { db with lists := reorderedLists db cur pos }

/-- PUT /api/lists/:id/reorder as the source runs it: BEGIN (0), SELECT the
list (1), SELECT the board's lists (2), the batch of position UPDATEs (3) and
COMMIT (5); every error branch calls rollback. -/
def reorderListTx (db : DB) (lid : Nat) (pos : Int) (fail : Nat → Bool) : TxResult :=
  if fail 0 then ⟨db, .error 500⟩
  else if fail 1 then ⟨db, .error 500⟩
  else match db.lists.find? (fun l => l.id == lid) with
  | none => ⟨db, .error 404⟩
  | some cur =>
    if fail 2 then ⟨db, .error 500⟩
    else if fail 3 then ⟨db, .error 500⟩
    else if fail 5 then ⟨db, .error 500⟩
    else ⟨{ db with lists := reorderedLists db cur pos }, .ok ()⟩

/-- SELECT COALESCE(MAX(position), -1) + 1, split into the MAX part. -/
def maxPos : List Int → Option Int
  | [] => none
  | x :: xs =>
    match maxPos xs with
    | none => some x
    | some m => some (max x m)

/-- COALESCE(MAX(position), -1) + 1 over a group's positions. -/
def nextPosition (ps : List Int) : Int :=
  match maxPos ps with
  | none => 0
  | some m => m + 1

/-- INSERT of POST /api/lists: the new list is appended with the next position. -/
def addList (db : DB) (bid : Nat) (title : String) : DB × KList :=
  let l : KList := ⟨db.nextListId, bid, title, nextPosition (listPositions db bid)⟩
  ({ db with lists := db.lists ++ [l], nextListId := db.nextListId + 1 }, l)

/-- INSERT of POST /api/cards: the new card is appended with the next position. -/
def addCard (db : DB) (lid : Nat) (title descr prio : String)
    (due : Option String) : DB × Card :=
  let c : Card := ⟨db.nextCardId, lid, title, descr, nextPosition (cardPositions db lid), prio, due⟩
  ({ db with cards := db.cards ++ [c], nextCardId := db.nextCardId + 1 }, c)

/-- DELETE FROM cards WHERE id = cid (no renumbering follows in the source). -/
def deleteCard (db : DB) (cid : Nat) : DB :=
  { db with cards := db.cards.filter (fun c => c.id != cid) }

/-- DELETE FROM lists WHERE id = lid; the ON DELETE CASCADE of cards.list_id
removes the list's cards (no renumbering follows in the source). -/
def deleteList (db : DB) (lid : Nat) : DB :=
  { db with lists := db.lists.filter (fun l => l.id != lid),
            cards := db.cards.filter (fun c => c.list_id != lid) }

/-- due_date.split("T")[0]: the prefix before the first T. -/
def truncateAtT (s : String) : String :=
  String.mk (s.data.takeWhile (fun ch => ch != 'T'))

/-- The characters String.prototype.trim strips: ECMAScript WhiteSpace (tab,
vertical tab, form feed, space, no-break space, the Space_Separator category
U+1680, U+2000..U+200A, U+202F, U+205F, U+3000, and U+FEFF) together with the
LineTerminators LF, CR, U+2028 and U+2029. -/
def jsWhitespaceChars : List Char :=
  ['\t', '\n', '\x0B', '\x0C', '\r', ' ', '\u00A0', '\u1680',
   '\u2000', '\u2001', '\u2002', '\u2003', '\u2004', '\u2005', '\u2006',
   '\u2007', '\u2008', '\u2009', '\u200A',
   '\u2028', '\u2029', '\u202F', '\u205F', '\u3000', '\uFEFF']

/-- Whether String.prototype.trim strips ch. -/
def jsWhitespace (ch : Char) : Bool := jsWhitespaceChars.any (fun w => ch == w)

/-- due_date.trim(): JavaScript whitespace stripped from both ends. -/
def jsTrim (s : String) : String :=
  String.mk (((s.data.dropWhile jsWhitespace).reverse.dropWhile jsWhitespace).reverse)

/-- The test formattedDate.match(/^\d{4}-\d{2}-\d{2}$/) of the card routes. -/
def matchesDate (s : String) : Bool :=
  match s.data with
  | [y1, y2, y3, y4, h1, m1, m2, h2, d1, d2] =>
    y1.isDigit && y2.isDigit && y3.isDigit && y4.isDigit && h1 == '-' &&
    m1.isDigit && m2.isDigit && h2 == '-' && d1.isDigit && d2.isDigit
  | _ => false

/-- The due_date handling shared by POST /api/cards and PUT /api/cards/:id:
an absent, empty or whitespace-only value is stored as NULL; otherwise the
value is truncated at T and must then match the date pattern, else 400. -/
def formatDueDate : Option String → Except Nat (Option String)
  | none => .ok none
  | some s =>
    if jsTrim s = "" then .ok none
    else
      let f := truncateAtT s
      if matchesDate f then .ok (some f) else .error 400

/-- POST /api/cards: defaulting of description and priority, date handling,
then the INSERT at the next position. -/
def postCard (db : DB) (lid : Nat) (title : String) (descr prio : Option String)
    (due : Option String) : Except Nat (DB × Card) :=
  match formatDueDate due with
  | .error e => .error e
  | .ok d => .ok (addCard db lid title (descr.getD "") (prio.getD "medium") d)

/-- The request body of PUT /api/cards/:id: absent fields keep current values. -/
structure CardUpdates where
  title : Option String
  description : Option String
  priority : Option String
  due_date : Option (Option String)

/-- A JavaScript value the update route's date guard can see as the merged
due_date: null/undefined, a string from the request body, or a stored DATE
column the mysql driver materializes as a JS Date object (the GET route's
instanceof Date branch shows the driver does return Date objects). -/
inductive DueVal where
  | nullV : DueVal
  | strV : String → DueVal
  | dateV : String → DueVal
deriving DecidableEq

/-- updates.due_date !== undefined ? updates.due_date : currentCard.due_date:
an omitted field falls back to the stored column value, which is NULL or a
JS Date object, never a string. -/
def mergedDue (u : CardUpdates) (c : Card) : DueVal :=
  match u.due_date with
  | some (some s) => .strV s
  | some none => .nullV
  | none =>
    match c.due_date with
    | some s => .dateV s
    | none => .nullV

/-- The UPDATE of PUT /api/cards/:id: the merged fields with the query's
|| defaults, and the formatted due date. -/
def putApply (db : DB) (cid : Nat) (u : CardUpdates) (c : Card) (d : Option String) : DB :=
  { db with cards := db.cards.map (fun x =>
      if x.id = cid then
        { x with title := u.title.getD c.title,
                 description := u.description.getD c.description,
                 priority := if u.priority.getD c.priority = "" then "medium"
                             else u.priority.getD c.priority,
                 due_date := d }
      else x) }

/-- PUT /api/cards/:id: merge the updates over the current row, run the date
guard on the merged value, then UPDATE; answers the stored due_date. The
result `none` is the path with no HTTP response at all: the guard evaluates
updatedData.due_date.trim() before its typeof check, and a JS Date has no
trim method, so the handler throws an uncaught TypeError. -/
def putCard (db : DB) (cid : Nat) (u : CardUpdates) :
    Option (Except Nat (DB × Option String)) :=
  match db.cards.find? (fun c => c.id == cid) with
  | none => some (.error 404)
  | some c =>
    match mergedDue u c with
    | .nullV => some (.ok (putApply db cid u c none, none))
    | .dateV _ => none
    | .strV s =>
      match formatDueDate (some s) with
      | .error e => some (.error e)
      | .ok d => some (.ok (putApply db cid u c d, d))

/-- The integer list 0, 1, ..., n-1. -/
def rangeInt (n : Nat) : List Int :=
  (List.range n).map (fun i : Nat => (i : Int))

/-- Density of a group: its positions are exactly 0..n-1, no gaps, no
duplicates (as a multiset, hence also as a set). -/
def Dense (ps : List Int) : Prop :=
  List.Perm ps (rangeInt ps.length)

instance (ps : List Int) : Decidable (Dense ps) := by
  unfold Dense; infer_instance

/-- Schema facts the store enforces: primary keys are unique and below the
AUTO_INCREMENT counters. -/
def DB.wf (db : DB) : Prop :=
  (db.cards.map (fun c => c.id)).Nodup ∧ (db.lists.map (fun l => l.id)).Nodup ∧
  (∀ c ∈ db.cards, c.id < db.nextCardId) ∧ (∀ l ∈ db.lists, l.id < db.nextListId)

/-- The density invariant: every board's lists and every list's cards sit at
dense positions. -/
def DB.dense (db : DB) : Prop :=
  (∀ bid, Dense (listPositions db bid)) ∧ (∀ lid, Dense (cardPositions db lid))

instance (db : DB) : Decidable db.wf := by
  unfold DB.wf
  infer_instance

/-- The operations of the reordering engine, as reachable from the routes. -/
inductive Op where
  | addL (bid : Nat) (title : String)
  | addC (lid : Nat) (title descr prio : String) (due : Option String)
  | move (cid lid : Nat) (pos : Int)
  | reorder (lid : Nat) (pos : Int)
  | delC (cid : Nat)
  | delL (lid : Nat)

/-- Effect of one completed operation: a failed route leaves the store as it
was (the transaction rolled back), a successful one commits its new state. -/
def applyOp (db : DB) : Op → DB
  | .addL bid title => (addList db bid title).1
  | .addC lid t d p due => (addCard db lid t d p due).1
  | .move cid lid pos =>
    match moveCard db cid lid pos with
    | .ok db1 => db1
    | .error _ => db
  | .reorder lid pos =>
    match reorderList db lid pos with
    | .ok db1 => db1
    | .error _ => db
  | .delC cid => deleteCard db cid
  | .delL lid => deleteList db lid

/-- Effect of a completed sequence of operations. -/
def applyOps (db : DB) (ops : List Op) : DB :=
  ops.foldl applyOp db

/-- Side condition of the amended density claim: deletes are excluded and a
move that succeeds must aim at an in-range target position. -/
def allowed (db : DB) : Op → Prop
  | .move cid lid pos =>
    ∀ c ∈ db.cards, c.id = cid →
      (c.list_id = lid → 0 ≤ pos ∧ pos < ((cardPositions db lid).length : Int)) ∧
      (c.list_id ≠ lid → listExists db lid = true →
        0 ≤ pos ∧ pos ≤ ((cardPositions db lid).length : Int))
  | .delC _ => False
  | .delL _ => False
  | _ => True

instance (db : DB) (op : Op) : Decidable (allowed db op) := by
  unfold allowed; cases op <;> infer_instance

/-- A sequence of operations each allowed in the state it runs in. -/
inductive Trace : DB → List Op → Prop
  | nil (db : DB) : Trace db []
  | cons {db : DB} {op : Op} {ops : List Op} :
      allowed db op → Trace (applyOp db op) ops → Trace db (op :: ops)

/-! ### Generic list lemmas -/

theorem filter_map_comm {α : Type} (u : α → α) (p : α → Bool) :
    ∀ l : List α, (∀ x ∈ l, p (u x) = p x) → (l.map u).filter p = (l.filter p).map u := by
  intro l
  induction l with
  | nil => intro _; rfl
  | cons a t ih =>
    intro h
    have ha := h a (by simp)
    have ht : ∀ x ∈ t, p (u x) = p x := fun x hx => h x (by simp [hx])
    simp only [List.map_cons, List.filter_cons, ha]
    cases hp : p a with
    | false => simpa using ih ht
    | true => simp [ih ht]

theorem find_key_some {α : Type} (key : α → Nat) (i : Nat) :
    ∀ (l : List α) (c : α), (l.map key).Nodup → c ∈ l → key c = i →
      l.find? (fun x => key x == i) = some c := by
  intro l
  induction l with
  | nil => intro c _ hc; cases hc
  | cons a t ih =>
    intro c hnd hc hk
    rw [List.map_cons] at hnd
    have hnd' := List.nodup_cons.mp hnd
    rcases List.mem_cons.mp hc with rfl | hct
    · exact List.find?_cons_of_pos _ (by simp [hk])
    · have hne : key a ≠ i := by
        intro hai
        have hmem : key c ∈ t.map key := List.mem_map_of_mem key hct
        rw [hk] at hmem
        exact hnd'.1 (hai ▸ hmem)
      rw [List.find?_cons_of_neg _ (by simp [hne])]
      exact ih c hnd'.2 hct hk

theorem find_key_none {α : Type} (key : α → Nat) (i : Nat) (l : List α)
    (h : ∀ x ∈ l, key x ≠ i) : l.find? (fun x => key x == i) = none := by
  rw [List.find?_eq_none]
  intro x hx
  simpa using h x hx

theorem erase_key_ne {α : Type} [DecidableEq α] (key : α → Nat) :
    ∀ (l : List α) (c : α), (l.map key).Nodup → c ∈ l →
      ∀ x ∈ l.erase c, key x ≠ key c := by
  intro l
  induction l with
  | nil => intro c _ hc; cases hc
  | cons a t ih =>
    intro c hnd hc x hx
    rw [List.map_cons] at hnd
    have hnd' := List.nodup_cons.mp hnd
    by_cases hac : a = c
    · subst hac
      rw [List.erase_cons_head] at hx
      intro hxa
      exact hnd'.1 (hxa ▸ List.mem_map_of_mem key hx)
    · have hct : c ∈ t := by
        rcases List.mem_cons.mp hc with h | h
        · exact absurd h.symm hac
        · exact h
      rw [List.erase_cons_tail] at hx
      · rcases List.mem_cons.mp hx with rfl | hxt
        · intro hxc
          exact hnd'.1 (hxc ▸ List.mem_map_of_mem key hct)
        · exact ih c hnd'.2 hct x hxt
      · simp [hac]

theorem perm_cons_filter_key {α : Type} (key : α → Nat) :
    ∀ (l : List α) (c : α), (l.map key).Nodup → c ∈ l →
      List.Perm l (c :: l.filter (fun y => key y != key c)) := by
  intro l
  induction l with
  | nil => intro c _ hc; cases hc
  | cons a t ih =>
    intro c hnd hc
    rw [List.map_cons] at hnd
    have hnd' := List.nodup_cons.mp hnd
    by_cases hac : a = c
    · subst hac
      have hkeep : t.filter (fun y => key y != key a) = t := by
        rw [List.filter_eq_self]
        intro y hy
        have : key y ≠ key a := by
          intro h; exact hnd'.1 (h ▸ List.mem_map_of_mem key hy)
        simpa using this
      simp [hkeep]
    · have hct : c ∈ t := by
        rcases List.mem_cons.mp hc with h | h
        · exact absurd h.symm hac
        · exact h
      have hka : key a ≠ key c := by
        intro h; exact hnd'.1 (h ▸ List.mem_map_of_mem key hct)
      have : (a :: t).filter (fun y => key y != key c) =
          a :: t.filter (fun y => key y != key c) := by
        simp [List.filter_cons, hka]
      rw [this]
      exact ((ih c hnd'.2 hct).cons a).trans (List.Perm.swap c a _)

theorem perm_erase_of_cons_perm {α : Type} [DecidableEq α] {c : α} {xs ys : List α}
    (h : List.Perm (c :: xs) ys) : List.Perm xs (ys.erase c) := by
  have h2 := h.erase c
  rwa [List.erase_cons_head] at h2

/-! ### Lemmas about rangeInt and Dense -/

theorem rangeInt_length (n : Nat) : (rangeInt n).length = n := by
  unfold rangeInt
  rw [List.length_map, List.length_range]

theorem rangeInt_succ (n : Nat) : rangeInt (n + 1) = rangeInt n ++ [(n : Int)] := by
  unfold rangeInt
  rw [List.range_succ, List.map_append]
  rfl

theorem mem_rangeInt {x : Int} {n : Nat} : x ∈ rangeInt n ↔ 0 ≤ x ∧ x < (n : Int) := by
  unfold rangeInt
  simp only [List.mem_map, List.mem_range]
  constructor
  · rintro ⟨i, hi, rfl⟩
    constructor
    · exact Int.natCast_nonneg i
    · exact_mod_cast hi
  · rintro ⟨h0, hn⟩
    exact ⟨x.toNat, by omega, by omega⟩

theorem rangeInt_nodup (n : Nat) : (rangeInt n).Nodup :=
  (List.nodup_range n).map (fun a b h => by exact_mod_cast h)

theorem dense_perm {ps qs : List Int} (h : List.Perm ps qs) (hd : Dense ps) : Dense qs := by
  unfold Dense at *
  rw [← h.length_eq]
  exact h.symm.trans hd

theorem dense_rangeInt (n : Nat) : Dense (rangeInt n) := by
  unfold Dense
  rw [rangeInt_length]

theorem rangeInt_split (k n : Nat) (h : k + 1 ≤ n) :
    rangeInt n = rangeInt (k + 1) ++
      (List.range (n - (k + 1))).map (fun i => ((k + 1 + i : Nat) : Int)) := by
  unfold rangeInt
  conv_lhs => rw [show n = (k + 1) + (n - (k + 1)) by omega]
  rw [List.range_add, List.map_append, List.map_map]
  rfl

theorem rangeInt_erase_last (k : Nat) : (rangeInt (k + 1)).erase (k : Int) = rangeInt k := by
  rw [rangeInt_succ]
  rw [List.erase_append_right _ (by rw [mem_rangeInt]; omega)]
  simp

theorem map_eq_self {α : Type} (l : List α) (f : α → α) (h : ∀ x ∈ l, f x = x) :
    l.map f = l := by
  induction l with
  | nil => rfl
  | cons a t ih =>
    rw [List.map_cons, h a (by simp), ih (fun x hx => h x (by simp [hx]))]

/-! ### The bounded-shift multiset lemmas -/

theorem perm_ins (t n : Nat) (h : t ≤ n) :
    List.Perm ((t : Int) :: (rangeInt n).map (fun x => if (t : Int) ≤ x then x + 1 else x))
      (rangeInt (n + 1)) := by
  induction n with
  | zero =>
    have ht : t = 0 := Nat.le_zero.mp h
    subst ht
    simp [rangeInt, List.range_succ]
  | succ n ih =>
    rcases Nat.lt_or_ge t (n + 1) with hlt | hge
    · have ht : t ≤ n := Nat.lt_succ_iff.mp hlt
      rw [rangeInt_succ n, List.map_append]
      have hmap1 : ([(n : Int)].map (fun x => if (t : Int) ≤ x then x + 1 else x)) =
          [((n : Nat) : Int) + 1] := by
        simp only [List.map_cons, List.map_nil]
        rw [if_pos (by exact_mod_cast ht)]
      rw [hmap1]
      have hstep : ((t : Int) :: ((rangeInt n).map
          (fun x => if (t : Int) ≤ x then x + 1 else x) ++ [((n : Nat) : Int) + 1])) =
          ((t : Int) :: (rangeInt n).map (fun x => if (t : Int) ≤ x then x + 1 else x)) ++
            [((n : Nat) : Int) + 1] := by
        simp
      rw [hstep]
      have htail : rangeInt (n + 1 + 1) = rangeInt (n + 1) ++ [((n : Nat) : Int) + 1] := by
        rw [rangeInt_succ (n + 1)]
        have hc : ((n + 1 : Nat) : Int) = ((n : Nat) : Int) + 1 := by push_cast; ring
        rw [hc]
      rw [htail]
      exact (ih ht).append_right _
    · have ht : t = n + 1 := Nat.le_antisymm h hge
      subst ht
      have hid : (rangeInt (n + 1)).map
          (fun x => if ((n + 1 : Nat) : Int) ≤ x then x + 1 else x) = rangeInt (n + 1) := by
        apply map_eq_self
        intro x hx
        rw [mem_rangeInt] at hx
        rw [if_neg (by push_cast; omega)]
      rw [hid, rangeInt_succ (n + 1)]
      exact (List.perm_append_singleton _ _).symm

theorem perm_del (p m : Nat) (h : p + 1 ≤ m) :
    List.Perm (((rangeInt m).erase (p : Int)).map (fun x => if (p : Int) < x then x - 1 else x))
      (rangeInt (m - 1)) := by
  induction m, h using Nat.le_induction with
  | base =>
    rw [rangeInt_erase_last p]
    have : (rangeInt p).map (fun x => if (p : Int) < x then x - 1 else x) = rangeInt p := by
      apply map_eq_self
      intro x hx
      rw [mem_rangeInt] at hx
      rw [if_neg (by omega)]
    rw [this]
    simp
  | succ m hm ih =>
    have hp : (p : Int) ∈ rangeInt m := by rw [mem_rangeInt]; constructor <;> [omega; exact_mod_cast hm]
    rw [rangeInt_succ m, List.erase_append_left _ hp, List.map_append]
    have hmap1 : ([(m : Int)].map (fun x => if (p : Int) < x then x - 1 else x)) =
        [(m : Int) - 1] := by
      simp only [List.map_cons, List.map_nil]
      rw [if_pos (by exact_mod_cast hm)]
    rw [hmap1]
    have htail : rangeInt (m + 1 - 1) = rangeInt (m - 1) ++ [(m : Int) - 1] := by
      have h1 : m + 1 - 1 = (m - 1) + 1 := by omega
      rw [h1, rangeInt_succ (m - 1)]
      congr 1
      have : ((m - 1 : Nat) : Int) = (m : Int) - 1 := by omega
      rw [this]
    rw [htail]
    exact ih.append_right _

theorem perm_wdown (p t n : Nat) (hpt : p < t) (htn : t < n) :
    List.Perm (((rangeInt n).erase (p : Int)).map
        (fun x => if (p : Int) < x ∧ x ≤ (t : Int) then x - 1 else x))
      ((rangeInt n).erase (t : Int)) := by
  have hsplit := rangeInt_split t n htn
  have hpmem : (p : Int) ∈ rangeInt (t + 1) := by rw [mem_rangeInt]; constructor <;> [omega; (push_cast; omega)]
  have htmem : (t : Int) ∈ rangeInt (t + 1) := by rw [mem_rangeInt]; constructor <;> [omega; (push_cast; omega)]
  rw [hsplit, List.erase_append_left _ hpmem, List.erase_append_left _ htmem,
    rangeInt_erase_last t, List.map_append]
  have hU : ((List.range (n - (t + 1))).map (fun i => ((t + 1 + i : Nat) : Int))).map
      (fun x => if (p : Int) < x ∧ x ≤ (t : Int) then x - 1 else x) =
      (List.range (n - (t + 1))).map (fun i => ((t + 1 + i : Nat) : Int)) := by
    apply map_eq_self
    intro x hx
    rcases List.mem_map.mp hx with ⟨i, _, rfl⟩
    rw [if_neg (by push_cast; omega)]
  rw [hU]
  apply List.Perm.append_right
  have hcongr : ((rangeInt (t + 1)).erase (p : Int)).map
      (fun x => if (p : Int) < x ∧ x ≤ (t : Int) then x - 1 else x) =
      ((rangeInt (t + 1)).erase (p : Int)).map
      (fun x => if (p : Int) < x then x - 1 else x) := by
    apply List.map_congr_left
    intro x hx
    have hxm : x ∈ rangeInt (t + 1) := List.mem_of_mem_erase hx
    rw [mem_rangeInt] at hxm
    by_cases hc : (p : Int) < x
    · rw [if_pos ⟨hc, by omega⟩, if_pos hc]
    · rw [if_neg (by tauto), if_neg hc]
  rw [hcongr]
  exact perm_del p (t + 1) (by omega)

theorem perm_wup (t p n : Nat) (htp : t < p) (hpn : p < n) :
    List.Perm (((rangeInt n).erase (p : Int)).map
        (fun x => if (t : Int) ≤ x ∧ x < (p : Int) then x + 1 else x))
      ((rangeInt n).erase (t : Int)) := by
  have hsplit := rangeInt_split p n hpn
  have hpmem : (p : Int) ∈ rangeInt (p + 1) := by rw [mem_rangeInt]; constructor <;> [omega; (push_cast; omega)]
  have htmem : (t : Int) ∈ rangeInt (p + 1) := by rw [mem_rangeInt]; constructor <;> [omega; (push_cast; omega)]
  rw [hsplit, List.erase_append_left _ hpmem, List.erase_append_left _ htmem,
    rangeInt_erase_last p, List.map_append]
  have hU : ((List.range (n - (p + 1))).map (fun i => ((p + 1 + i : Nat) : Int))).map
      (fun x => if (t : Int) ≤ x ∧ x < (p : Int) then x + 1 else x) =
      (List.range (n - (p + 1))).map (fun i => ((p + 1 + i : Nat) : Int)) := by
    apply map_eq_self
    intro x hx
    rcases List.mem_map.mp hx with ⟨i, _, rfl⟩
    rw [if_neg (by push_cast; omega)]
  rw [hU]
  apply List.Perm.append_right
  have hcongr : (rangeInt p).map
      (fun x => if (t : Int) ≤ x ∧ x < (p : Int) then x + 1 else x) =
      (rangeInt p).map (fun x => if (t : Int) ≤ x then x + 1 else x) := by
    apply List.map_congr_left
    intro x hx
    rw [mem_rangeInt] at hx
    by_cases hc : (t : Int) ≤ x
    · rw [if_pos ⟨hc, by omega⟩, if_pos hc]
    · rw [if_neg (by tauto), if_neg hc]
  rw [hcongr]
  exact perm_erase_of_cons_perm (perm_ins t p (by omega))

/-! ### Lemmas about maxPos and nextPosition -/

theorem maxPos_perm : ∀ {l1 l2 : List Int}, List.Perm l1 l2 → maxPos l1 = maxPos l2 := by
  intro l1 l2 h
  induction h with
  | nil => rfl
  | cons x _ ih => simp only [maxPos, ih]
  | swap x y l =>
    simp only [maxPos]
    cases maxPos l with
    | none => simp [max_comm]
    | some m => simp [max_left_comm]
  | trans _ _ ih1 ih2 => exact ih1.trans ih2

theorem maxPos_snoc : ∀ (l : List Int) (a : Int), maxPos (l ++ [a]) =
    some (match maxPos l with | none => a | some m => max m a) := by
  intro l a
  induction l with
  | nil => rfl
  | cons x t ih =>
    simp only [List.cons_append, maxPos, List.append_eq]
    rw [ih]
    cases maxPos t with
    | none => simp
    | some m => simp [max_assoc]

theorem maxPos_rangeInt (n : Nat) : maxPos (rangeInt (n + 1)) = some (n : Int) := by
  induction n with
  | zero => rfl
  | succ n ih =>
    rw [rangeInt_succ (n + 1), maxPos_snoc, ih]
    have : max (n : Int) ((n + 1 : Nat) : Int) = ((n + 1 : Nat) : Int) := by
      apply max_eq_right
      push_cast
      omega
    simp [this]

theorem nextPosition_dense {ps : List Int} (h : Dense ps) :
    nextPosition ps = (ps.length : Int) := by
  unfold Dense at h
  unfold nextPosition
  rw [maxPos_perm h]
  cases hn : ps.length with
  | zero => rfl
  | succ n =>
    rw [maxPos_rangeInt]
    push_cast
    ring

/-! ### The composite per-card effect of each branch of the move route -/

/-- Composite effect of a same-list move down (target after current):
the later cards in the gap shift up one slot, the moved card lands at t. -/
def withinDownF (cid lid : Nat) (p t : Int) (x : Card) : Card :=
  if x.id = cid then { x with list_id := lid, position := t }
  else if x.list_id = lid ∧ p < x.position ∧ x.position ≤ t then
    { x with position := x.position - 1 }
  else x

/-- Composite effect of a same-list move up (target before current). -/
def withinUpF (cid lid : Nat) (t p : Int) (x : Card) : Card :=
  if x.id = cid then { x with list_id := lid, position := t }
  else if x.list_id = lid ∧ t ≤ x.position ∧ x.position < p then
    { x with position := x.position + 1 }
  else x

/-- Composite effect of a cross-list move: the source group closes the gap
after p, the target group opens a slot at t, the moved card lands there. -/
def crossF (cid src : Nat) (p : Int) (lid : Nat) (t : Int) (x : Card) : Card :=
  if x.id = cid then { x with list_id := lid, position := t }
  else if x.list_id = src ∧ p < x.position then { x with position := x.position - 1 }
  else if x.list_id = lid ∧ t ≤ x.position then { x with position := x.position + 1 }
  else x

theorem moveCard_within_down (db : DB) (cid lid : Nat) (t : Int) (c : Card)
    (hf : db.cards.find? (fun x => x.id == cid) = some c)
    (hl : c.list_id = lid) (hex : listExists db lid = true) (hpt : c.position < t) :
    moveCard db cid lid t =
      .ok { db with cards := db.cards.map (withinDownF cid lid c.position t) } := by
  have hex2 : listExists (shiftDownBetween db lid c.position t) lid = true := hex
  simp only [moveCard, hf, if_pos hl, if_pos hpt, finishMove, hex2, if_true]
  congr 1
  show setCard (shiftDownBetween db lid c.position t) cid lid t = _
  simp only [setCard, shiftDownBetween]
  congr 1
  rw [List.map_map]
  apply List.map_congr_left
  intro x _
  rcases x with ⟨a0, a1, a2, a3, a4, a5, a6⟩
  simp only [Function.comp, withinDownF]
  by_cases h1 : a0 = cid <;> by_cases h2 : a1 = lid ∧ c.position < a4 ∧ a4 ≤ t <;>
    simp [h1, h2]

theorem moveCard_within_up (db : DB) (cid lid : Nat) (t : Int) (c : Card)
    (hf : db.cards.find? (fun x => x.id == cid) = some c)
    (hl : c.list_id = lid) (hex : listExists db lid = true) (htp : t < c.position) :
    moveCard db cid lid t =
      .ok { db with cards := db.cards.map (withinUpF cid lid t c.position) } := by
  have hex2 : listExists (shiftUpBetween db lid t c.position) lid = true := hex
  have hnotlt : ¬ c.position < t := by omega
  simp only [moveCard, hf, if_pos hl, if_neg hnotlt, if_pos htp, finishMove, hex2, if_true]
  congr 1
  show setCard (shiftUpBetween db lid t c.position) cid lid t = _
  simp only [setCard, shiftUpBetween]
  congr 1
  rw [List.map_map]
  apply List.map_congr_left
  intro x _
  rcases x with ⟨a0, a1, a2, a3, a4, a5, a6⟩
  simp only [Function.comp, withinUpF]
  by_cases h1 : a0 = cid <;> by_cases h2 : a1 = lid ∧ t ≤ a4 ∧ a4 < c.position <;>
    simp [h1, h2]

theorem moveCard_within_same (db : DB) (cid lid : Nat) (t : Int) (c : Card)
    (hf : db.cards.find? (fun x => x.id == cid) = some c)
    (hl : c.list_id = lid) (hsame : t = c.position) :
    moveCard db cid lid t = .ok db := by
  simp only [moveCard, hf, if_pos hl]
  rw [if_neg (by omega), if_neg (by omega)]

theorem moveCard_cross (db : DB) (cid lid : Nat) (t : Int) (c : Card)
    (hf : db.cards.find? (fun x => x.id == cid) = some c)
    (hl : c.list_id ≠ lid) (hex : listExists db lid = true) :
    moveCard db cid lid t =
      .ok { db with cards := db.cards.map (crossF cid c.list_id c.position lid t) } := by
  have hex2 : listExists (openSlot (closeGap db c.list_id c.position) lid t) lid = true := hex
  simp only [moveCard, hf, if_neg hl, finishMove, hex2, if_true]
  congr 1
  show setCard (openSlot (closeGap db c.list_id c.position) lid t) cid lid t = _
  simp only [setCard, openSlot, closeGap]
  congr 1
  rw [List.map_map, List.map_map]
  apply List.map_congr_left
  intro x _
  rcases x with ⟨a0, a1, a2, a3, a4, a5, a6⟩
  simp only [Function.comp, crossF]
  have hl2 : lid ≠ c.list_id := Ne.symm hl
  by_cases h1 : a0 = cid <;> by_cases h2 : a1 = c.list_id ∧ c.position < a4
  · simp [h1, h2, hl, hl2]
  · by_cases h3 : a1 = lid ∧ t ≤ a4 <;> simp [h1, h2, h3, hl, hl2]
  · simp [h1, h2, hl, hl2]
  · by_cases h3 : a1 = lid ∧ t ≤ a4 <;> simp [h1, h2, h3, hl, hl2]

theorem moveCard_notfound (db : DB) (cid lid : Nat) (t : Int)
    (h : db.cards.find? (fun x => x.id == cid) = none) :
    moveCard db cid lid t = .error 404 := by
  simp only [moveCard, h]

/-! ### Positions of a group after a pointwise update of the cards table -/

/-- The cards of one group, read off an arbitrary cards table. -/
def groupOf (cards : List Card) (g : Nat) : List Card :=
  cards.filter (fun x => x.list_id == g)

theorem cardsInList_eq_groupOf (db : DB) (g : Nat) :
    cardsInList db g = groupOf db.cards g := rfl

theorem cardPositions_eq (db : DB) (g : Nat) :
    cardPositions db g = (groupOf db.cards g).map (fun x => x.position) := rfl

theorem mem_groupOf {cards : List Card} {g : Nat} {x : Card} :
    x ∈ groupOf cards g ↔ x ∈ cards ∧ x.list_id = g := by
  unfold groupOf
  rw [List.mem_filter]
  simp

theorem groupOf_map_comm (cards : List Card) (u : Card → Card) (g : Nat)
    (h : ∀ x ∈ cards, (u x).list_id = g ↔ x.list_id = g) :
    groupOf (cards.map u) g = (groupOf cards g).map u := by
  unfold groupOf
  apply filter_map_comm
  intro x hx
  by_cases hc : x.list_id = g
  · have h2 := (h x hx).mpr hc
    simp [hc, h2]
  · have h2 : ¬ (u x).list_id = g := fun hh => hc ((h x hx).mp hh)
    simp [hc, h2]

theorem groupOf_erase_not (cards : List Card) (c : Card) (g : Nat) (hc : c ∈ cards)
    (hcg : c.list_id ≠ g) :
    List.Perm (groupOf cards g) (groupOf (cards.erase c) g) := by
  have h2 := (List.perm_cons_erase hc).filter (fun x => x.list_id == g)
  rw [List.filter_cons] at h2
  unfold groupOf
  simpa [hcg] using h2

theorem groupOf_erase_mem (cards : List Card) (c : Card) (g : Nat) (hc : c ∈ cards)
    (hcg : c.list_id = g) :
    List.Perm (groupOf cards g) (c :: groupOf (cards.erase c) g) := by
  have h2 := (List.perm_cons_erase hc).filter (fun x => x.list_id == g)
  rw [List.filter_cons] at h2
  unfold groupOf
  simpa [hcg] using h2

theorem positions_after_map (cards : List Card) (u : Card → Card) (c : Card) (g : Nat)
    (f : Int → Int)
    (hnd : (cards.map (fun x => x.id)).Nodup) (hc : c ∈ cards)
    (hkeep : ∀ x ∈ cards, x.id ≠ c.id → (u x).list_id = x.list_id)
    (hpos : ∀ x ∈ cards, x.id ≠ c.id → x.list_id = g → (u x).position = f x.position) :
    List.Perm ((groupOf (cards.map u) g).map (fun x => x.position))
      (if (u c).list_id = g then
        (u c).position :: ((groupOf (cards.erase c) g).map (fun x => x.position)).map f
      else ((groupOf (cards.erase c) g).map (fun x => x.position)).map f) := by
  have hid : ∀ x ∈ cards.erase c, x.id ≠ c.id :=
    erase_key_ne (fun x => x.id) cards c hnd hc
  have hmem : ∀ x ∈ cards.erase c, x ∈ cards := fun x hx => List.mem_of_mem_erase hx
  have h2 : List.Perm (cards.map u) (u c :: (cards.erase c).map u) :=
    (List.perm_cons_erase hc).map u
  have h3 := h2.filter (fun x => x.list_id == g)
  rw [List.filter_cons] at h3
  have hcomm : List.filter (fun x => x.list_id == g) ((cards.erase c).map u) =
      (groupOf (cards.erase c) g).map u := by
    apply groupOf_map_comm
    intro x hx
    rw [hkeep x (hmem x hx) (hid x hx)]
  have hposmap : ((groupOf (cards.erase c) g).map u).map (fun x => x.position) =
      ((groupOf (cards.erase c) g).map (fun x => x.position)).map f := by
    rw [List.map_map, List.map_map]
    apply List.map_congr_left
    intro x hx
    rcases mem_groupOf.mp hx with ⟨hx1, hx2⟩
    exact hpos x (hmem x hx1) (hid x hx1) hx2
  by_cases hcg : (u c).list_id = g
  · rw [if_pos hcg]
    rw [if_pos (by simp [hcg])] at h3
    rw [hcomm] at h3
    have h4 := h3.map (fun x => x.position)
    rw [List.map_cons, hposmap] at h4
    exact h4
  · rw [if_neg hcg]
    rw [if_neg (by simp [hcg])] at h3
    rw [hcomm] at h3
    have h4 := h3.map (fun x => x.position)
    rw [hposmap] at h4
    exact h4

/-! ### Density preservation of the three move branches -/

theorem dense_unrelated (db : DB) (u : Card → Card) (c : Card) (g : Nat)
    (hnd : (db.cards.map (fun x => x.id)).Nodup) (hc : c ∈ db.cards)
    (hkeep : ∀ x ∈ db.cards, x.id ≠ c.id → (u x).list_id = x.list_id)
    (hcl : (u c).list_id ≠ g) (hcg : c.list_id ≠ g)
    (hposid : ∀ x ∈ db.cards, x.id ≠ c.id → x.list_id = g → (u x).position = x.position)
    (hdense : Dense (cardPositions db g)) :
    Dense (cardPositions { db with cards := db.cards.map u } g) := by
  have hmain := positions_after_map db.cards u c g (fun y => y) hnd hc hkeep hposid
  rw [if_neg hcl] at hmain
  have hid2 : ((groupOf (db.cards.erase c) g).map (fun x => x.position)).map (fun y => y) =
      (groupOf (db.cards.erase c) g).map (fun x => x.position) :=
    map_eq_self _ _ (fun _ _ => rfl)
  rw [hid2] at hmain
  have hgp : List.Perm (cardPositions db g)
      ((groupOf (db.cards.erase c) g).map (fun x => x.position)) := by
    rw [cardPositions_eq]
    exact (groupOf_erase_not db.cards c g hc hcg).map (fun x => x.position)
  exact dense_perm (hgp.trans hmain.symm) hdense

theorem dense_within_down (db : DB) (cid lid : Nat) (t : Int) (c : Card)
    (hnd : (db.cards.map (fun x => x.id)).Nodup)
    (hc : c ∈ db.cards) (hid : c.id = cid) (hl : c.list_id = lid)
    (hdense : ∀ g, Dense (cardPositions db g))
    (ht0 : 0 ≤ t) (htl : t < ((cardPositions db lid).length : Int)) (hpt : c.position < t) :
    ∀ g, Dense (cardPositions
      { db with cards := db.cards.map (withinDownF cid lid c.position t) } g) := by
  intro g
  have hucl : (withinDownF cid lid c.position t c).list_id = lid := by
    unfold withinDownF
    rw [if_pos hid]
  have hucp : (withinDownF cid lid c.position t c).position = t := by
    unfold withinDownF
    rw [if_pos hid]
  have hkeep : ∀ x ∈ db.cards, x.id ≠ c.id →
      (withinDownF cid lid c.position t x).list_id = x.list_id := by
    intro x _ hxid
    have hxcid : ¬ x.id = cid := by rw [← hid]; exact hxid
    unfold withinDownF
    rw [if_neg hxcid]
    split_ifs <;> rfl
  by_cases hg : g = lid
  · subst hg
    have hposf : ∀ x ∈ db.cards, x.id ≠ c.id → x.list_id = g →
        (withinDownF cid g c.position t x).position =
          (fun y => if c.position < y ∧ y ≤ t then y - 1 else y) x.position := by
      intro x _ hxid hxl
      have hxcid : ¬ x.id = cid := by rw [← hid]; exact hxid
      unfold withinDownF
      rw [if_neg hxcid]
      by_cases hcc : c.position < x.position ∧ x.position ≤ t
      · rw [if_pos ⟨hxl, hcc.1, hcc.2⟩]; simp [hcc]
      · rw [if_neg (fun hh => hcc ⟨hh.2.1, hh.2.2⟩)]; simp [hcc]
    have hmain := positions_after_map db.cards (withinDownF cid g c.position t) c g
      (fun y => if c.position < y ∧ y ≤ t then y - 1 else y) hnd hc hkeep hposf
    rw [if_pos hucl, hucp] at hmain
    have hX : List.Perm (cardPositions db g)
        (c.position :: (groupOf (db.cards.erase c) g).map (fun x => x.position)) := by
      rw [cardPositions_eq]
      exact (groupOf_erase_mem db.cards c g hc hl).map (fun x => x.position)
    have hX2 : List.Perm ((groupOf (db.cards.erase c) g).map (fun x => x.position))
        ((cardPositions db g).erase c.position) :=
      perm_erase_of_cons_perm hX.symm
    set n := (cardPositions db g).length with hn
    have hpmem : c.position ∈ cardPositions db g := by
      rw [cardPositions_eq]
      exact List.mem_map_of_mem (fun x => x.position) (mem_groupOf.mpr ⟨hc, hl⟩)
    have hprange : c.position ∈ rangeInt n := ((hdense g).mem_iff).mp hpmem
    rw [mem_rangeInt] at hprange
    have hp0 : 0 ≤ c.position := hprange.1
    have hcp : ((c.position.toNat : Nat) : Int) = c.position := Int.toNat_of_nonneg hp0
    have hct : ((t.toNat : Nat) : Int) = t := Int.toNat_of_nonneg ht0
    have hwd := perm_wdown c.position.toNat t.toNat n (by omega) (by omega)
    rw [hcp, hct] at hwd
    have hchain : List.Perm
        (((groupOf (db.cards.erase c) g).map (fun x => x.position)).map
          (fun y => if c.position < y ∧ y ≤ t then y - 1 else y))
        ((rangeInt n).erase t) :=
      ((hX2.trans ((hdense g).erase c.position)).map _).trans hwd
    have htmem : t ∈ rangeInt n := by rw [mem_rangeInt]; exact ⟨ht0, htl⟩
    exact dense_perm
      ((hmain.trans (hchain.cons t)).trans (List.perm_cons_erase htmem).symm).symm
      (dense_rangeInt n)
  · apply dense_unrelated db _ c g hnd hc hkeep _ _ _ (hdense g)
    · rw [hucl]; exact fun hh => hg hh.symm
    · rw [hl]; exact fun hh => hg hh.symm
    · intro x _ hxid hxl
      have hxcid : ¬ x.id = cid := by rw [← hid]; exact hxid
      unfold withinDownF
      rw [if_neg hxcid, if_neg (fun hh => hg (hxl ▸ hh.1))]

theorem dense_within_up (db : DB) (cid lid : Nat) (t : Int) (c : Card)
    (hnd : (db.cards.map (fun x => x.id)).Nodup)
    (hc : c ∈ db.cards) (hid : c.id = cid) (hl : c.list_id = lid)
    (hdense : ∀ g, Dense (cardPositions db g))
    (ht0 : 0 ≤ t) (htl : t < ((cardPositions db lid).length : Int)) (htp : t < c.position) :
    ∀ g, Dense (cardPositions
      { db with cards := db.cards.map (withinUpF cid lid t c.position) } g) := by
  intro g
  have hucl : (withinUpF cid lid t c.position c).list_id = lid := by
    unfold withinUpF
    rw [if_pos hid]
  have hucp : (withinUpF cid lid t c.position c).position = t := by
    unfold withinUpF
    rw [if_pos hid]
  have hkeep : ∀ x ∈ db.cards, x.id ≠ c.id →
      (withinUpF cid lid t c.position x).list_id = x.list_id := by
    intro x _ hxid
    have hxcid : ¬ x.id = cid := by rw [← hid]; exact hxid
    unfold withinUpF
    rw [if_neg hxcid]
    split_ifs <;> rfl
  by_cases hg : g = lid
  · subst hg
    have hposf : ∀ x ∈ db.cards, x.id ≠ c.id → x.list_id = g →
        (withinUpF cid g t c.position x).position =
          (fun y => if t ≤ y ∧ y < c.position then y + 1 else y) x.position := by
      intro x _ hxid hxl
      have hxcid : ¬ x.id = cid := by rw [← hid]; exact hxid
      unfold withinUpF
      rw [if_neg hxcid]
      by_cases hcc : t ≤ x.position ∧ x.position < c.position
      · rw [if_pos ⟨hxl, hcc.1, hcc.2⟩]; simp [hcc]
      · rw [if_neg (fun hh => hcc ⟨hh.2.1, hh.2.2⟩)]; simp [hcc]
    have hmain := positions_after_map db.cards (withinUpF cid g t c.position) c g
      (fun y => if t ≤ y ∧ y < c.position then y + 1 else y) hnd hc hkeep hposf
    rw [if_pos hucl, hucp] at hmain
    have hX : List.Perm (cardPositions db g)
        (c.position :: (groupOf (db.cards.erase c) g).map (fun x => x.position)) := by
      rw [cardPositions_eq]
      exact (groupOf_erase_mem db.cards c g hc hl).map (fun x => x.position)
    have hX2 : List.Perm ((groupOf (db.cards.erase c) g).map (fun x => x.position))
        ((cardPositions db g).erase c.position) :=
      perm_erase_of_cons_perm hX.symm
    set n := (cardPositions db g).length with hn
    have hpmem : c.position ∈ cardPositions db g := by
      rw [cardPositions_eq]
      exact List.mem_map_of_mem (fun x => x.position) (mem_groupOf.mpr ⟨hc, hl⟩)
    have hprange : c.position ∈ rangeInt n := ((hdense g).mem_iff).mp hpmem
    rw [mem_rangeInt] at hprange
    have hp0 : 0 ≤ c.position := hprange.1
    have hcp : ((c.position.toNat : Nat) : Int) = c.position := Int.toNat_of_nonneg hp0
    have hct : ((t.toNat : Nat) : Int) = t := Int.toNat_of_nonneg ht0
    have hwu := perm_wup t.toNat c.position.toNat n (by omega) (by omega)
    rw [hcp, hct] at hwu
    have hchain : List.Perm
        (((groupOf (db.cards.erase c) g).map (fun x => x.position)).map
          (fun y => if t ≤ y ∧ y < c.position then y + 1 else y))
        ((rangeInt n).erase t) :=
      ((hX2.trans ((hdense g).erase c.position)).map _).trans hwu
    have htmem : t ∈ rangeInt n := by rw [mem_rangeInt]; exact ⟨ht0, htl⟩
    exact dense_perm
      ((hmain.trans (hchain.cons t)).trans (List.perm_cons_erase htmem).symm).symm
      (dense_rangeInt n)
  · apply dense_unrelated db _ c g hnd hc hkeep _ _ _ (hdense g)
    · rw [hucl]; exact fun hh => hg hh.symm
    · rw [hl]; exact fun hh => hg hh.symm
    · intro x _ hxid hxl
      have hxcid : ¬ x.id = cid := by rw [← hid]; exact hxid
      unfold withinUpF
      rw [if_neg hxcid, if_neg (fun hh => hg (hxl ▸ hh.1))]

theorem perm_cross_target (db : DB) (cid lid : Nat) (t : Int) (c : Card)
    (hnd : (db.cards.map (fun x => x.id)).Nodup)
    (hc : c ∈ db.cards) (hid : c.id = cid) (hl : c.list_id ≠ lid)
    (hdense : ∀ g, Dense (cardPositions db g))
    (ht0 : 0 ≤ t) (htl : t ≤ ((cardPositions db lid).length : Int)) :
    List.Perm (cardPositions
      { db with cards := db.cards.map (crossF cid c.list_id c.position lid t) } lid)
      (rangeInt ((cardPositions db lid).length + 1)) := by
  have hucl : (crossF cid c.list_id c.position lid t c).list_id = lid := by
    unfold crossF
    rw [if_pos hid]
  have hucp : (crossF cid c.list_id c.position lid t c).position = t := by
    unfold crossF
    rw [if_pos hid]
  have hkeep : ∀ x ∈ db.cards, x.id ≠ c.id →
      (crossF cid c.list_id c.position lid t x).list_id = x.list_id := by
    intro x _ hxid
    have hxcid : ¬ x.id = cid := by rw [← hid]; exact hxid
    unfold crossF
    rw [if_neg hxcid]
    split_ifs <;> rfl
  have hposf : ∀ x ∈ db.cards, x.id ≠ c.id → x.list_id = lid →
      (crossF cid c.list_id c.position lid t x).position =
        (fun y => if t ≤ y then y + 1 else y) x.position := by
    intro x _ hxid hxl
    have hxcid : ¬ x.id = cid := by rw [← hid]; exact hxid
    unfold crossF
    rw [if_neg hxcid, if_neg (by rintro ⟨hh, _⟩; exact hl (by rw [← hh, hxl]))]
    by_cases hcc : t ≤ x.position
    · rw [if_pos ⟨hxl, hcc⟩]; simp [hcc]
    · rw [if_neg (fun hh => hcc hh.2)]; simp [hcc]
  have hmain := positions_after_map db.cards (crossF cid c.list_id c.position lid t) c lid
    (fun y => if t ≤ y then y + 1 else y) hnd hc hkeep hposf
  rw [if_pos hucl, hucp] at hmain
  have hY : List.Perm (cardPositions db lid)
      ((groupOf (db.cards.erase c) lid).map (fun x => x.position)) := by
    rw [cardPositions_eq]
    exact (groupOf_erase_not db.cards c lid hc hl).map (fun x => x.position)
  set n := (cardPositions db lid).length with hn
  have hct : ((t.toNat : Nat) : Int) = t := Int.toNat_of_nonneg ht0
  have hins := perm_ins t.toNat n (by omega)
  rw [hct] at hins
  have hchain : List.Perm
      (((groupOf (db.cards.erase c) lid).map (fun x => x.position)).map
        (fun y => if t ≤ y then y + 1 else y))
      ((rangeInt n).map (fun y => if t ≤ y then y + 1 else y)) :=
    (hY.symm.trans (hdense lid)).map _
  exact (hmain.trans (hchain.cons t)).trans hins

theorem perm_cross_source (db : DB) (cid lid : Nat) (t : Int) (c : Card)
    (hnd : (db.cards.map (fun x => x.id)).Nodup)
    (hc : c ∈ db.cards) (hid : c.id = cid) (hl : c.list_id ≠ lid)
    (hdense : ∀ g, Dense (cardPositions db g)) :
    List.Perm (cardPositions
      { db with cards := db.cards.map (crossF cid c.list_id c.position lid t) } c.list_id)
      (rangeInt ((cardPositions db c.list_id).length - 1)) := by
  have hucl : (crossF cid c.list_id c.position lid t c).list_id = lid := by
    unfold crossF
    rw [if_pos hid]
  have hkeep : ∀ x ∈ db.cards, x.id ≠ c.id →
      (crossF cid c.list_id c.position lid t x).list_id = x.list_id := by
    intro x _ hxid
    have hxcid : ¬ x.id = cid := by rw [← hid]; exact hxid
    unfold crossF
    rw [if_neg hxcid]
    split_ifs <;> rfl
  have hposf : ∀ x ∈ db.cards, x.id ≠ c.id → x.list_id = c.list_id →
      (crossF cid c.list_id c.position lid t x).position =
        (fun y => if c.position < y then y - 1 else y) x.position := by
    intro x _ hxid hxl
    have hxcid : ¬ x.id = cid := by rw [← hid]; exact hxid
    unfold crossF
    rw [if_neg hxcid]
    by_cases hcc : c.position < x.position
    · rw [if_pos ⟨hxl, hcc⟩]; simp [hcc]
    · rw [if_neg (fun hh => hcc hh.2),
        if_neg (by rintro ⟨hh, _⟩; exact hl (by rw [← hxl, hh]))]
      simp [hcc]
  have hmain := positions_after_map db.cards (crossF cid c.list_id c.position lid t)
    c c.list_id (fun y => if c.position < y then y - 1 else y) hnd hc hkeep hposf
  rw [if_neg (by rw [hucl]; exact fun hh => hl hh.symm)] at hmain
  have hX : List.Perm (cardPositions db c.list_id)
      (c.position ::
        (groupOf (db.cards.erase c) c.list_id).map (fun x => x.position)) := by
    rw [cardPositions_eq]
    exact (groupOf_erase_mem db.cards c c.list_id hc rfl).map (fun x => x.position)
  have hX2 : List.Perm
      ((groupOf (db.cards.erase c) c.list_id).map (fun x => x.position))
      ((cardPositions db c.list_id).erase c.position) :=
    perm_erase_of_cons_perm hX.symm
  set m := (cardPositions db c.list_id).length with hm
  have hpmem : c.position ∈ cardPositions db c.list_id := by
    rw [cardPositions_eq]
    exact List.mem_map_of_mem (fun x => x.position) (mem_groupOf.mpr ⟨hc, rfl⟩)
  have hprange : c.position ∈ rangeInt m := ((hdense c.list_id).mem_iff).mp hpmem
  rw [mem_rangeInt] at hprange
  have hcp : ((c.position.toNat : Nat) : Int) = c.position :=
    Int.toNat_of_nonneg hprange.1
  have hdel := perm_del c.position.toNat m (by omega)
  rw [hcp] at hdel
  have hchain : List.Perm
      (((groupOf (db.cards.erase c) c.list_id).map (fun x => x.position)).map
        (fun y => if c.position < y then y - 1 else y))
      (rangeInt (m - 1)) :=
    ((hX2.trans ((hdense c.list_id).erase c.position)).map _).trans hdel
  exact hmain.trans hchain

theorem dense_cross (db : DB) (cid lid : Nat) (t : Int) (c : Card)
    (hnd : (db.cards.map (fun x => x.id)).Nodup)
    (hc : c ∈ db.cards) (hid : c.id = cid) (hl : c.list_id ≠ lid)
    (hdense : ∀ g, Dense (cardPositions db g))
    (ht0 : 0 ≤ t) (htl : t ≤ ((cardPositions db lid).length : Int)) :
    ∀ g, Dense (cardPositions
      { db with cards := db.cards.map (crossF cid c.list_id c.position lid t) } g) := by
  intro g
  by_cases hgt : g = lid
  · rw [hgt]
    exact dense_perm (perm_cross_target db cid lid t c hnd hc hid hl hdense ht0 htl).symm
      (dense_rangeInt _)
  · by_cases hgs : g = c.list_id
    · rw [hgs]
      exact dense_perm (perm_cross_source db cid lid t c hnd hc hid hl hdense).symm
        (dense_rangeInt _)
    · have hucl : (crossF cid c.list_id c.position lid t c).list_id = lid := by
        unfold crossF
        rw [if_pos hid]
      have hkeep : ∀ x ∈ db.cards, x.id ≠ c.id →
          (crossF cid c.list_id c.position lid t x).list_id = x.list_id := by
        intro x _ hxid
        have hxcid : ¬ x.id = cid := by rw [← hid]; exact hxid
        unfold crossF
        rw [if_neg hxcid]
        split_ifs <;> rfl
      apply dense_unrelated db _ c g hnd hc hkeep _ _ _ (hdense g)
      · rw [hucl]; exact fun hh => hgt hh.symm
      · exact fun hh => hgs hh.symm
      · intro x _ hxid hxl
        have hxcid : ¬ x.id = cid := by rw [← hid]; exact hxid
        unfold crossF
        rw [if_neg hxcid, if_neg (by rintro ⟨hh, _⟩; exact hgs (by rw [← hxl, hh])),
          if_neg (by rintro ⟨hh, _⟩; exact hgt (by rw [← hxl, hh]))]

/-! ### The list-reorder resequencing -/

theorem insPos_perm (x : KList) : ∀ l : List KList, List.Perm (insPos x l) (x :: l) := by
  intro l
  induction l with
  | nil => exact List.Perm.refl _
  | cons y ys ih =>
    unfold insPos
    by_cases h : x.position ≤ y.position
    · rw [if_pos h]
    · rw [if_neg h]
      exact (ih.cons y).trans (List.Perm.swap x y ys)

theorem sortByPos_perm : ∀ l : List KList, List.Perm (sortByPos l) l := by
  intro l
  induction l with
  | nil => exact List.Perm.refl _
  | cons x xs ih => exact (insPos_perm x (sortByPos xs)).trans (ih.cons x)

theorem insertAt_perm (x : KList) : ∀ (l : List KList) (k : Nat),
    List.Perm (insertAt k x l) (x :: l) := by
  intro l
  induction l with
  | nil =>
    intro k
    cases k <;> exact List.Perm.refl _
  | cons y ys ih =>
    intro k
    cases k with
    | zero => exact List.Perm.refl _
    | succ k =>
      unfold insertAt
      exact ((ih k).cons y).trans (List.Perm.swap x y ys)

theorem idxOf_some_of_id_mem (i : Nat) :
    ∀ seq : List KList, (∃ y ∈ seq, y.id = i) → ∃ k, idxOf i seq = some k := by
  intro seq
  induction seq with
  | nil => rintro ⟨y, hy, _⟩; cases hy
  | cons s ss ih =>
    rintro ⟨y, hy, hyi⟩
    unfold idxOf
    by_cases hs : s.id = i
    · exact ⟨0, by rw [if_pos hs]⟩
    · rcases List.mem_cons.mp hy with rfl | hyss
      · exact absurd hyi hs
      · rcases ih ⟨y, hyss, hyi⟩ with ⟨k, hk⟩
        exact ⟨k + 1, by rw [if_neg hs, hk]; rfl⟩

theorem idxOf_none (i : Nat) :
    ∀ seq : List KList, (∀ y ∈ seq, y.id ≠ i) → idxOf i seq = none := by
  intro seq
  induction seq with
  | nil => intro _; rfl
  | cons s ss ih =>
    intro h
    unfold idxOf
    rw [if_neg (h s (by simp)), ih (fun y hy => h y (by simp [hy]))]
    rfl

/-- The position the batch of UPDATEs writes for a given id (0 when absent). -/
def idxInt (seq : List KList) (i : Nat) : Int :=
  match idxOf i seq with
  | some k => (k : Int)
  | none => 0

theorem rangeInt_succ_cons (n : Nat) :
    rangeInt (n + 1) = 0 :: (rangeInt n).map (fun x => x + 1) := by
  unfold rangeInt
  rw [List.range_succ_eq_map]
  simp only [List.map_cons, List.map_map, Nat.cast_zero]
  congr 1

theorem map_idxInt_self : ∀ seq : List KList, (seq.map (fun y => y.id)).Nodup →
    seq.map (fun y => idxInt seq y.id) = rangeInt seq.length := by
  intro seq
  induction seq with
  | nil => intro _; rfl
  | cons s ss ih =>
    intro hnd
    rw [List.map_cons] at hnd
    have hnd' := List.nodup_cons.mp hnd
    rw [List.map_cons]
    have hhead : idxInt (s :: ss) s.id = 0 := by
      unfold idxInt idxOf
      rw [if_pos rfl]
      rfl
    have htail : ss.map (fun y => idxInt (s :: ss) y.id) =
        (ss.map (fun y => idxInt ss y.id)).map (fun x => x + 1) := by
      rw [List.map_map]
      apply List.map_congr_left
      intro y hy
      have hys : s.id ≠ y.id := by
        intro h
        exact hnd'.1 (h ▸ List.mem_map_of_mem (fun z => z.id) hy)
      rcases idxOf_some_of_id_mem y.id ss ⟨y, hy, rfl⟩ with ⟨k, hk⟩
      simp only [Function.comp, idxInt, idxOf, if_neg (fun hh => hys hh), hk]
      rfl
    rw [hhead, htail, ih hnd'.2, List.length_cons, rangeInt_succ_cons]

theorem seqUpd_board (seq : List KList) (l : KList) :
    (seqUpd seq l).board_id = l.board_id := by
  unfold seqUpd
  cases idxOf l.id seq <;> rfl

theorem seqUpd_id (seq : List KList) (l : KList) : (seqUpd seq l).id = l.id := by
  unfold seqUpd
  cases idxOf l.id seq <;> rfl

/-- The board rows of one board, read off an arbitrary lists table. -/
def boardOf (ls : List KList) (b : Nat) : List KList :=
  ls.filter (fun l => l.board_id == b)

theorem listsInBoard_eq_boardOf (db : DB) (b : Nat) :
    listsInBoard db b = boardOf db.lists b := rfl

theorem listPositions_eq (db : DB) (b : Nat) :
    listPositions db b = (boardOf db.lists b).map (fun l => l.position) := rfl

theorem mem_boardOf {ls : List KList} {b : Nat} {l : KList} :
    l ∈ boardOf ls b ↔ l ∈ ls ∧ l.board_id = b := by
  unfold boardOf
  rw [List.mem_filter]
  simp

theorem boardOf_map_seqUpd (ls : List KList) (seq : List KList) (b : Nat) :
    boardOf (ls.map (seqUpd seq)) b = (boardOf ls b).map (seqUpd seq) := by
  unfold boardOf
  apply filter_map_comm
  intro l _
  rw [seqUpd_board]

theorem reorder_board_perm (db : DB) (pos : Int) (cur : KList)
    (hnd : (db.lists.map (fun l => l.id)).Nodup)
    (hcur : cur ∈ db.lists) :
    List.Perm (listPositions { db with lists := reorderedLists db cur pos } cur.board_id)
      (rangeInt (listsInBoard db cur.board_id).length) := by
  have hbl : cur ∈ listsInBoard db cur.board_id := by
    rw [listsInBoard_eq_boardOf]
    exact mem_boardOf.mpr ⟨hcur, rfl⟩
  have hblnd : ((listsInBoard db cur.board_id).map (fun l => l.id)).Nodup := by
    rw [listsInBoard_eq_boardOf]
    exact ((List.filter_sublist _).map (fun l : KList => l.id)).nodup hnd
  have hperm4 : List.Perm (listsInBoard db cur.board_id)
      (cur :: (listsInBoard db cur.board_id).filter (fun y => y.id != cur.id)) :=
    perm_cons_filter_key (fun l => l.id) _ cur hblnd hbl
  have hothers : List.Perm
      ((sortByPos (listsInBoard db cur.board_id)).filter (fun l => l.id != cur.id))
      ((listsInBoard db cur.board_id).filter (fun y => y.id != cur.id)) :=
    (sortByPos_perm _).filter _
  have hseqbl : List.Perm
      (insertAt (spliceIndex ((sortByPos (listsInBoard db cur.board_id)).filter
        (fun l => l.id != cur.id)).length pos) cur
        ((sortByPos (listsInBoard db cur.board_id)).filter (fun l => l.id != cur.id)))
      (listsInBoard db cur.board_id) :=
    (insertAt_perm cur _ _).trans ((hothers.cons cur).trans hperm4.symm)
  set seq := insertAt (spliceIndex ((sortByPos (listsInBoard db cur.board_id)).filter
    (fun l => l.id != cur.id)).length pos) cur
    ((sortByPos (listsInBoard db cur.board_id)).filter (fun l => l.id != cur.id)) with hseq
  have hseqnd : (seq.map (fun y => y.id)).Nodup :=
    (List.Perm.nodup_iff (hseqbl.map (fun y => y.id))).mpr hblnd
  have hre : reorderedLists db cur pos = db.lists.map (seqUpd seq) := rfl
  rw [listPositions_eq]
  show List.Perm ((boardOf (reorderedLists db cur pos) cur.board_id).map
    (fun l => l.position)) _
  rw [hre, boardOf_map_seqUpd, ← listsInBoard_eq_boardOf]
  have hpos2 : (listsInBoard db cur.board_id).map (fun l => (seqUpd seq l).position) =
      (listsInBoard db cur.board_id).map (fun l => idxInt seq l.id) := by
    apply List.map_congr_left
    intro l hl
    have hmemid : ∃ y ∈ seq, y.id = l.id := ⟨l, (hseqbl.mem_iff).mpr hl, rfl⟩
    rcases idxOf_some_of_id_mem l.id seq hmemid with ⟨k, hk⟩
    unfold seqUpd idxInt
    rw [hk]
  rw [List.map_map]
  have hcomp : ((fun l : KList => l.position) ∘ seqUpd seq) =
      fun l => (seqUpd seq l).position := rfl
  rw [hcomp, hpos2]
  have hfin : List.Perm
      ((listsInBoard db cur.board_id).map (fun l => idxInt seq l.id))
      (seq.map (fun y => idxInt seq y.id)) :=
    hseqbl.symm.map _
  rw [map_idxInt_self seq hseqnd] at hfin
  have hlen : seq.length = (listsInBoard db cur.board_id).length := hseqbl.length_eq
  exact hfin.trans (by rw [hlen])

theorem dense_reorder (db : DB) (pos : Int) (cur : KList)
    (hnd : (db.lists.map (fun l => l.id)).Nodup)
    (hcur : cur ∈ db.lists)
    (hdense : ∀ b, Dense (listPositions db b)) :
    ∀ b, Dense (listPositions { db with lists := reorderedLists db cur pos } b) := by
  intro b
  have hbl : cur ∈ listsInBoard db cur.board_id := by
    rw [listsInBoard_eq_boardOf]
    exact mem_boardOf.mpr ⟨hcur, rfl⟩
  by_cases hb : b = cur.board_id
  · rw [hb]
    exact dense_perm (reorder_board_perm db pos cur hnd hcur).symm (dense_rangeInt _)
  · have hseqbl : List.Perm
        (insertAt (spliceIndex ((sortByPos (listsInBoard db cur.board_id)).filter
          (fun l => l.id != cur.id)).length pos) cur
          ((sortByPos (listsInBoard db cur.board_id)).filter (fun l => l.id != cur.id)))
        (listsInBoard db cur.board_id) := by
      have hblnd : ((listsInBoard db cur.board_id).map (fun l : KList => l.id)).Nodup := by
        rw [listsInBoard_eq_boardOf]
        exact ((List.filter_sublist _).map (fun l : KList => l.id)).nodup hnd
      have hperm4 : List.Perm (listsInBoard db cur.board_id)
          (cur :: (listsInBoard db cur.board_id).filter (fun y => y.id != cur.id)) :=
        perm_cons_filter_key (fun l => l.id) _ cur hblnd hbl
      have hothers : List.Perm
          ((sortByPos (listsInBoard db cur.board_id)).filter (fun l => l.id != cur.id))
          ((listsInBoard db cur.board_id).filter (fun y => y.id != cur.id)) :=
        (sortByPos_perm _).filter _
      exact (insertAt_perm cur _ _).trans ((hothers.cons cur).trans hperm4.symm)
    set seq := insertAt (spliceIndex ((sortByPos (listsInBoard db cur.board_id)).filter
      (fun l => l.id != cur.id)).length pos) cur
      ((sortByPos (listsInBoard db cur.board_id)).filter (fun l => l.id != cur.id)) with hseq
    have hre : reorderedLists db cur pos = db.lists.map (seqUpd seq) := rfl
    rw [listPositions_eq]
    show Dense ((boardOf (reorderedLists db cur pos) b).map (fun l => l.position))
    rw [hre, boardOf_map_seqUpd]
    have hid2 : (boardOf db.lists b).map (seqUpd seq) = boardOf db.lists b := by
      apply map_eq_self
      intro l hl
      rcases mem_boardOf.mp hl with ⟨hl1, hl2⟩
      have hnone : idxOf l.id seq = none := by
        apply idxOf_none
        intro y hy hyl
        have hybl := (hseqbl.mem_iff).mp hy
        have hydb : y ∈ db.lists := by
          rw [listsInBoard_eq_boardOf] at hybl
          exact (mem_boardOf.mp hybl).1
        have hyeq : y = l := List.inj_on_of_nodup_map hnd hydb hl1 hyl
        rw [listsInBoard_eq_boardOf] at hybl
        have hyb := (mem_boardOf.mp hybl).2
        rw [hyeq] at hyb
        exact hb (hl2 ▸ hyb)
      unfold seqUpd
      rw [hnone]
    rw [hid2, ← listPositions_eq]
    exact hdense b

/-! ### Append and delete -/

theorem groupOf_append (cards : List Card) (c : Card) (g : Nat) :
    groupOf (cards ++ [c]) g =
      groupOf cards g ++ if c.list_id = g then [c] else [] := by
  unfold groupOf
  rw [List.filter_append]
  congr 1
  by_cases h : c.list_id = g <;> simp [h]

theorem boardOf_append (ls : List KList) (l : KList) (b : Nat) :
    boardOf (ls ++ [l]) b =
      boardOf ls b ++ if l.board_id = b then [l] else [] := by
  unfold boardOf
  rw [List.filter_append]
  congr 1
  by_cases h : l.board_id = b <;> simp [h]

theorem dense_snoc {ps : List Int} (h : Dense ps) :
    Dense (ps ++ [(ps.length : Int)]) := by
  have h2 : List.Perm (ps ++ [(ps.length : Int)])
      (rangeInt ps.length ++ [(ps.length : Int)]) := h.append_right _
  rw [← rangeInt_succ] at h2
  exact dense_perm h2.symm (dense_rangeInt (ps.length + 1))

theorem dense_addCard (db : DB) (lid : Nat) (title descr prio : String)
    (due : Option String) (hdense : ∀ g, Dense (cardPositions db g)) :
    ∀ g, Dense (cardPositions (addCard db lid title descr prio due).1 g) := by
  intro g
  show Dense ((groupOf (db.cards ++
    [⟨db.nextCardId, lid, title, descr, nextPosition (cardPositions db lid), prio, due⟩])
    g).map (fun x => x.position))
  rw [groupOf_append]
  by_cases h : lid = g
  · rw [if_pos h, List.map_append]
    simp only [List.map_cons, List.map_nil]
    rw [nextPosition_dense (hdense lid), h]
    exact dense_snoc (hdense g)
  · rw [if_neg h, List.append_nil]
    exact hdense g

theorem dense_addList (db : DB) (bid : Nat) (title : String)
    (hdense : ∀ b, Dense (listPositions db b)) :
    ∀ b, Dense (listPositions (addList db bid title).1 b) := by
  intro b
  show Dense ((boardOf (db.lists ++
    [⟨db.nextListId, bid, title, nextPosition (listPositions db bid)⟩])
    b).map (fun l => l.position))
  rw [boardOf_append]
  by_cases h : bid = b
  · rw [if_pos h, List.map_append]
    simp only [List.map_cons, List.map_nil]
    rw [nextPosition_dense (hdense bid), h]
    exact dense_snoc (hdense b)
  · rw [if_neg h, List.append_nil]
    exact hdense b

theorem filter_swap {α : Type} (p q : α → Bool) :
    ∀ l : List α, (l.filter p).filter q = (l.filter q).filter p := by
  intro l
  induction l with
  | nil => rfl
  | cons a t ih =>
    by_cases hp : p a <;> by_cases hq : q a <;>
      simp [List.filter_cons, hp, hq, ih]

theorem deleteCard_group_positions (db : DB) (cid : Nat) (c : Card)
    (hnd : (db.cards.map (fun x => x.id)).Nodup)
    (hc : c ∈ db.cards) (hid : c.id = cid) :
    List.Perm (cardPositions (deleteCard db cid) c.list_id)
      ((cardPositions db c.list_id).erase c.position) := by
  have hshape : cardPositions (deleteCard db cid) c.list_id =
      ((groupOf db.cards c.list_id).filter (fun x => x.id != cid)).map
        (fun x => x.position) := by
    rw [cardPositions_eq]
    show (groupOf (db.cards.filter (fun x => x.id != cid)) c.list_id).map
      (fun x => x.position) = _
    unfold groupOf
    rw [filter_swap]
  rw [hshape]
  have h1 := (groupOf_erase_mem db.cards c c.list_id hc rfl).filter
    (fun x => x.id != cid)
  rw [List.filter_cons] at h1
  have hcfalse : (c.id != cid) = false := by simp [hid]
  rw [hcfalse] at h1
  simp only [Bool.false_eq_true, if_neg] at h1
  have h2 : (groupOf (db.cards.erase c) c.list_id).filter (fun x => x.id != cid) =
      groupOf (db.cards.erase c) c.list_id := by
    rw [List.filter_eq_self]
    intro x hx
    have hxe : x ∈ db.cards.erase c := (mem_groupOf.mp hx).1
    have := erase_key_ne (fun y => y.id) db.cards c hnd hc x hxe
    simp only [bne_iff_ne, ne_eq]
    rw [← hid]
    exact this
  rw [h2] at h1
  have h3 : List.Perm (cardPositions db c.list_id)
      (c.position :: (groupOf (db.cards.erase c) c.list_id).map (fun x => x.position)) := by
    rw [cardPositions_eq]
    exact (groupOf_erase_mem db.cards c c.list_id hc rfl).map (fun x => x.position)
  exact (h1.map (fun x => x.position)).trans (perm_erase_of_cons_perm h3.symm)

theorem boardOf_erase_mem (ls : List KList) (l : KList) (b : Nat) (hl : l ∈ ls)
    (hlb : l.board_id = b) :
    List.Perm (boardOf ls b) (l :: boardOf (ls.erase l) b) := by
  have h2 := (List.perm_cons_erase hl).filter (fun y => y.board_id == b)
  rw [List.filter_cons] at h2
  unfold boardOf
  simpa [hlb] using h2

theorem deleteList_board_positions (db : DB) (lid : Nat) (l : KList)
    (hnd : (db.lists.map (fun x => x.id)).Nodup)
    (hl : l ∈ db.lists) (hid : l.id = lid) :
    List.Perm (listPositions (deleteList db lid) l.board_id)
      ((listPositions db l.board_id).erase l.position) := by
  have hshape : listPositions (deleteList db lid) l.board_id =
      ((boardOf db.lists l.board_id).filter (fun x => x.id != lid)).map
        (fun x => x.position) := by
    rw [listPositions_eq]
    show (boardOf (db.lists.filter (fun x => x.id != lid)) l.board_id).map
      (fun x => x.position) = _
    unfold boardOf
    rw [filter_swap]
  rw [hshape]
  have h1 := (boardOf_erase_mem db.lists l l.board_id hl rfl).filter
    (fun x => x.id != lid)
  rw [List.filter_cons] at h1
  have hcfalse : (l.id != lid) = false := by simp [hid]
  rw [hcfalse] at h1
  simp only [Bool.false_eq_true, if_neg] at h1
  have h2 : (boardOf (db.lists.erase l) l.board_id).filter (fun x => x.id != lid) =
      boardOf (db.lists.erase l) l.board_id := by
    rw [List.filter_eq_self]
    intro x hx
    have hxe : x ∈ db.lists.erase l := (mem_boardOf.mp hx).1
    have := erase_key_ne (fun y => y.id) db.lists l hnd hl x hxe
    simp only [bne_iff_ne, ne_eq]
    rw [← hid]
    exact this
  rw [h2] at h1
  have h3 : List.Perm (listPositions db l.board_id)
      (l.position :: (boardOf (db.lists.erase l) l.board_id).map (fun x => x.position)) := by
    rw [listPositions_eq]
    exact (boardOf_erase_mem db.lists l l.board_id hl rfl).map (fun x => x.position)
  exact (h1.map (fun x => x.position)).trans (perm_erase_of_cons_perm h3.symm)

/-! ### Success-shape of the move route, and invariant preservation -/

theorem listExists_shiftDown (db : DB) (lid' : Nat) (p t : Int) (lid : Nat) :
    listExists (shiftDownBetween db lid' p t) lid = listExists db lid := rfl

theorem listExists_shiftUp (db : DB) (lid' : Nat) (t p : Int) (lid : Nat) :
    listExists (shiftUpBetween db lid' t p) lid = listExists db lid := rfl

theorem listExists_closeGap (db : DB) (lid' : Nat) (p : Int) (lid : Nat) :
    listExists (closeGap db lid' p) lid = listExists db lid := rfl

theorem listExists_openSlot (db : DB) (lid' : Nat) (t : Int) (lid : Nat) :
    listExists (openSlot db lid' t) lid = listExists db lid := rfl

theorem withinDownF_id (cid lid : Nat) (p t : Int) (x : Card) :
    (withinDownF cid lid p t x).id = x.id := by
  unfold withinDownF
  split_ifs <;> rfl

theorem withinUpF_id (cid lid : Nat) (t p : Int) (x : Card) :
    (withinUpF cid lid t p x).id = x.id := by
  unfold withinUpF
  split_ifs <;> rfl

theorem crossF_id (cid src : Nat) (p : Int) (lid : Nat) (t : Int) (x : Card) :
    (crossF cid src p lid t x).id = x.id := by
  unfold crossF
  split_ifs <;> rfl

theorem moveCard_ok_cases (db : DB) (cid lid : Nat) (pos : Int) (db1 : DB)
    (h : moveCard db cid lid pos = .ok db1) :
    ∃ c, db.cards.find? (fun x => x.id == cid) = some c ∧
      ((c.list_id = lid ∧ pos = c.position ∧ db1 = db) ∨
       (c.list_id = lid ∧ c.position < pos ∧ listExists db lid = true ∧
         db1 = { db with cards := db.cards.map (withinDownF cid lid c.position pos) }) ∨
       (c.list_id = lid ∧ pos < c.position ∧ listExists db lid = true ∧
         db1 = { db with cards := db.cards.map (withinUpF cid lid pos c.position) }) ∨
       (c.list_id ≠ lid ∧ listExists db lid = true ∧
         db1 = { db with cards := db.cards.map (crossF cid c.list_id c.position lid pos) })) := by
  cases hf : db.cards.find? (fun x => x.id == cid) with
  | none => rw [moveCard_notfound db cid lid pos hf] at h; cases h
  | some c =>
    refine ⟨c, rfl, ?_⟩
    by_cases h1 : c.list_id = lid
    · by_cases hex : listExists db lid = true
      · by_cases h2 : c.position < pos
        · rw [moveCard_within_down db cid lid pos c hf h1 hex h2] at h
          cases h
          exact Or.inr (Or.inl ⟨h1, h2, hex, rfl⟩)
        · by_cases h3 : pos < c.position
          · rw [moveCard_within_up db cid lid pos c hf h1 hex h3] at h
            cases h
            exact Or.inr (Or.inr (Or.inl ⟨h1, h3, hex, rfl⟩))
          · have hsame : pos = c.position := by omega
            rw [moveCard_within_same db cid lid pos c hf h1 hsame] at h
            cases h
            exact Or.inl ⟨h1, hsame, rfl⟩
      · by_cases h2 : c.position < pos
        · exfalso
          simp only [moveCard, hf, finishMove] at h
          rw [if_pos h1, if_pos h2, listExists_shiftDown,
            if_neg (fun hh => hex hh)] at h
          cases h
        · by_cases h3 : pos < c.position
          · exfalso
            simp only [moveCard, hf, finishMove] at h
            rw [if_pos h1, if_neg (by omega), if_pos h3, listExists_shiftUp,
              if_neg (fun hh => hex hh)] at h
            cases h
          · have hsame : pos = c.position := by omega
            rw [moveCard_within_same db cid lid pos c hf h1 hsame] at h
            cases h
            exact Or.inl ⟨h1, hsame, rfl⟩
    · by_cases hex : listExists db lid = true
      · rw [moveCard_cross db cid lid pos c hf h1 hex] at h
        cases h
        exact Or.inr (Or.inr (Or.inr ⟨h1, hex, rfl⟩))
      · exfalso
        simp only [moveCard, hf, finishMove] at h
        rw [if_neg h1, listExists_openSlot, listExists_closeGap,
          if_neg (fun hh => hex hh)] at h
        cases h

theorem map_ids_eq (cards : List Card) (u : Card → Card)
    (h : ∀ x, (u x).id = x.id) :
    (cards.map u).map (fun x => x.id) = cards.map (fun x => x.id) := by
  rw [List.map_map]
  apply List.map_congr_left
  intro x _
  exact h x

theorem find?_mem_id {cards : List Card} {cid : Nat} {c : Card}
    (hf : cards.find? (fun x => x.id == cid) = some c) :
    c ∈ cards ∧ c.id = cid := by
  refine ⟨List.mem_of_find?_eq_some hf, ?_⟩
  have := List.find?_some hf
  simpa using this

theorem wf_map_cards (db : DB) (u : Card → Card) (hwf : db.wf)
    (h : ∀ x, (u x).id = x.id) : ({ db with cards := db.cards.map u } : DB).wf := by
  obtain ⟨hw1, hw2, hw3, hw4⟩ := hwf
  refine ⟨?_, hw2, ?_, hw4⟩
  · show ((db.cards.map u).map (fun x => x.id)).Nodup
    rw [map_ids_eq db.cards u h]
    exact hw1
  · intro x hx
    rcases List.mem_map.mp hx with ⟨y, hy, rfl⟩
    rw [h y]
    exact hw3 y hy

theorem preserve_move (db : DB) (cid lid : Nat) (pos : Int)
    (hwf : db.wf) (hdense : db.dense) (hallow : allowed db (Op.move cid lid pos)) :
    (applyOp db (Op.move cid lid pos)).wf ∧ (applyOp db (Op.move cid lid pos)).dense := by
  show (match moveCard db cid lid pos with
    | .ok db1 => db1 | .error _ => db).wf ∧
    (match moveCard db cid lid pos with
    | .ok db1 => db1 | .error _ => db).dense
  cases hm : moveCard db cid lid pos with
  | error e => exact ⟨hwf, hdense⟩
  | ok db1 =>
    rcases moveCard_ok_cases db cid lid pos db1 hm with ⟨c, hf, hcases⟩
    rcases find?_mem_id hf with ⟨hc, hid⟩
    have hallow2 := hallow c hc hid
    rcases hcases with ⟨h1, h2, rfl⟩ | ⟨h1, h2, hex, rfl⟩ | ⟨h1, h2, hex, rfl⟩ |
      ⟨h1, hex, rfl⟩
    · exact ⟨hwf, hdense⟩
    · refine ⟨wf_map_cards db _ hwf (withinDownF_id cid lid c.position pos), ?_, ?_⟩
      · intro bid
        exact hdense.1 bid
      · exact dense_within_down db cid lid pos c hwf.1 hc hid h1 hdense.2
          (hallow2.1 h1).1 (hallow2.1 h1).2 h2
    · refine ⟨wf_map_cards db _ hwf (withinUpF_id cid lid pos c.position), ?_, ?_⟩
      · intro bid
        exact hdense.1 bid
      · exact dense_within_up db cid lid pos c hwf.1 hc hid h1 hdense.2
          (hallow2.1 h1).1 (hallow2.1 h1).2 h2
    · refine ⟨wf_map_cards db _ hwf (crossF_id cid c.list_id c.position lid pos), ?_, ?_⟩
      · intro bid
        exact hdense.1 bid
      · exact dense_cross db cid lid pos c hwf.1 hc hid h1 hdense.2
          (hallow2.2 h1 hex).1 (hallow2.2 h1 hex).2

theorem preserve_reorder (db : DB) (lid : Nat) (pos : Int)
    (hwf : db.wf) (hdense : db.dense) :
    (applyOp db (Op.reorder lid pos)).wf ∧ (applyOp db (Op.reorder lid pos)).dense := by
  show (match reorderList db lid pos with
    | .ok db1 => db1 | .error _ => db).wf ∧
    (match reorderList db lid pos with
    | .ok db1 => db1 | .error _ => db).dense
  cases hr : reorderList db lid pos with
  | error e => exact ⟨hwf, hdense⟩
  | ok db1 =>
    unfold reorderList at hr
    cases hf : db.lists.find? (fun l => l.id == lid) with
    | none => rw [hf] at hr; cases hr
    | some cur =>
      rw [hf] at hr
      cases hr
      have hcur : cur ∈ db.lists := List.mem_of_find?_eq_some hf
      obtain ⟨hw1, hw2, hw3, hw4⟩ := hwf
      have hids : (reorderedLists db cur pos).map (fun l : KList => l.id) =
          db.lists.map (fun l : KList => l.id) := by
        simp only [reorderedLists, applySeq]
        rw [List.map_map]
        apply List.map_congr_left
        intro l _
        exact seqUpd_id _ l
      refine ⟨⟨hw1, ?_, hw3, ?_⟩, ?_, ?_⟩
      · show ((reorderedLists db cur pos).map (fun l : KList => l.id)).Nodup
        rw [hids]
        exact hw2
      · intro l hl
        rcases List.mem_map.mp hl with ⟨y, hy, rfl⟩
        rw [seqUpd_id]
        exact hw4 y hy
      · exact dense_reorder db pos cur hw2 hcur hdense.1
      · intro g
        exact hdense.2 g

theorem preserve_addL (db : DB) (bid : Nat) (title : String)
    (hwf : db.wf) (hdense : db.dense) :
    (applyOp db (Op.addL bid title)).wf ∧ (applyOp db (Op.addL bid title)).dense := by
  obtain ⟨hw1, hw2, hw3, hw4⟩ := hwf
  refine ⟨⟨hw1, ?_, hw3, ?_⟩, ?_, ?_⟩
  · show ((db.lists ++ [_]).map (fun l : KList => l.id)).Nodup
    rw [List.map_append, List.nodup_append]
    refine ⟨hw2, List.nodup_singleton _, ?_⟩
    intro a ha hb
    rcases List.mem_map.mp ha with ⟨y, hy, rfl⟩
    have h4 := hw4 y hy
    rw [List.map_singleton, List.mem_singleton] at hb
    have h5 : y.id = db.nextListId := hb
    omega
  · intro l hl
    show l.id < db.nextListId + 1
    rcases List.mem_append.mp hl with hl | hl
    · have := hw4 l hl
      omega
    · rw [List.mem_singleton] at hl
      rw [hl]
      show db.nextListId < db.nextListId + 1
      omega
  · exact dense_addList db bid title hdense.1
  · intro g
    exact hdense.2 g

theorem preserve_addC (db : DB) (lid : Nat) (t d p : String) (due : Option String)
    (hwf : db.wf) (hdense : db.dense) :
    (applyOp db (Op.addC lid t d p due)).wf ∧ (applyOp db (Op.addC lid t d p due)).dense := by
  obtain ⟨hw1, hw2, hw3, hw4⟩ := hwf
  refine ⟨⟨?_, hw2, ?_, hw4⟩, ?_, ?_⟩
  · show ((db.cards ++ [_]).map (fun c : Card => c.id)).Nodup
    rw [List.map_append, List.nodup_append]
    refine ⟨hw1, List.nodup_singleton _, ?_⟩
    intro a ha hb
    rcases List.mem_map.mp ha with ⟨y, hy, rfl⟩
    have h4 := hw3 y hy
    rw [List.map_singleton, List.mem_singleton] at hb
    have h5 : y.id = db.nextCardId := hb
    omega
  · intro c hc
    show c.id < db.nextCardId + 1
    rcases List.mem_append.mp hc with hc | hc
    · have := hw3 c hc
      omega
    · rw [List.mem_singleton] at hc
      rw [hc]
      show db.nextCardId < db.nextCardId + 1
      omega
  · intro bid
    exact hdense.1 bid
  · exact dense_addCard db lid t d p due hdense.2

/-! ### Transaction runs: every failure rolls back, success commits the full move -/

theorem finishMoveTx_spec (orig work : DB) (cid lid : Nat) (pos : Int) (fail : Nat → Bool) :
    (∀ e, (finishMoveTx orig work cid lid pos fail).response = .error e →
      (finishMoveTx orig work cid lid pos fail).persisted = orig) ∧
    ((finishMoveTx orig work cid lid pos fail).response = .ok () →
      finishMove work cid lid pos = .ok (finishMoveTx orig work cid lid pos fail).persisted) := by
  unfold finishMoveTx finishMove
  by_cases h4 : fail 4 = true
  · rw [if_pos h4]
    exact ⟨fun e _ => rfl, fun h => by simp at h⟩
  · rw [if_neg h4]
    by_cases hex : listExists work lid = true
    · rw [if_pos hex, if_pos hex]
      by_cases h5 : fail 5 = true
      · rw [if_pos h5]
        exact ⟨fun e _ => rfl, fun h => by simp at h⟩
      · rw [if_neg h5]
        exact ⟨fun e he => by simp at he, fun _ => rfl⟩
    · rw [if_neg hex, if_neg hex]
      exact ⟨fun e _ => rfl, fun h => by simp at h⟩

theorem moveCardTx_atomic (db : DB) (cid lid : Nat) (pos : Int) (fail : Nat → Bool) :
    (∀ e, (moveCardTx db cid lid pos fail).response = .error e →
      (moveCardTx db cid lid pos fail).persisted = db) ∧
    ((moveCardTx db cid lid pos fail).response = .ok () →
      moveCard db cid lid pos = .ok (moveCardTx db cid lid pos fail).persisted) := by
  unfold moveCardTx
  by_cases h0 : fail 0 = true
  · rw [if_pos h0]
    exact ⟨fun e _ => rfl, fun h => by simp at h⟩
  · rw [if_neg h0]
    by_cases h1 : fail 1 = true
    · rw [if_pos h1]
      exact ⟨fun e _ => rfl, fun h => by simp at h⟩
    · rw [if_neg h1]
      cases hf : db.cards.find? (fun x => x.id == cid) with
      | none => exact ⟨fun e _ => rfl, fun h => by simp at h⟩
      | some c =>
        dsimp only
        by_cases hcl : c.list_id = lid
        · rw [if_pos hcl]
          by_cases h2 : c.position < pos
          · rw [if_pos h2]
            by_cases hf2 : fail 2 = true
            · rw [if_pos hf2]
              exact ⟨fun e _ => rfl, fun h => by simp at h⟩
            · rw [if_neg hf2]
              refine ⟨(finishMoveTx_spec db _ cid lid pos fail).1, fun h => ?_⟩
              have h3 := (finishMoveTx_spec db
                (shiftDownBetween db lid c.position pos) cid lid pos fail).2 h
              rw [show moveCard db cid lid pos =
                finishMove (shiftDownBetween db lid c.position pos) cid lid pos from by
                simp only [moveCard, hf, if_pos hcl, if_pos h2]]
              exact h3
          · rw [if_neg h2]
            by_cases h3 : pos < c.position
            · rw [if_pos h3]
              by_cases hf2 : fail 2 = true
              · rw [if_pos hf2]
                exact ⟨fun e _ => rfl, fun h => by simp at h⟩
              · rw [if_neg hf2]
                refine ⟨(finishMoveTx_spec db _ cid lid pos fail).1, fun h => ?_⟩
                have h4 := (finishMoveTx_spec db
                  (shiftUpBetween db lid pos c.position) cid lid pos fail).2 h
                rw [show moveCard db cid lid pos =
                  finishMove (shiftUpBetween db lid pos c.position) cid lid pos from by
                  simp only [moveCard, hf, if_pos hcl, if_neg h2, if_pos h3]]
                exact h4
            · rw [if_neg h3]
              by_cases h5 : fail 5 = true
              · rw [if_pos h5]
                exact ⟨fun e _ => rfl, fun h => by simp at h⟩
              · rw [if_neg h5]
                refine ⟨fun e he => by simp at he, fun _ => ?_⟩
                simp only [moveCard, hf, if_pos hcl, if_neg h2, if_neg h3]
        · rw [if_neg hcl]
          by_cases hf2 : fail 2 = true
          · rw [if_pos hf2]
            exact ⟨fun e _ => rfl, fun h => by simp at h⟩
          · rw [if_neg hf2]
            by_cases hf3 : fail 3 = true
            · rw [if_pos hf3]
              exact ⟨fun e _ => rfl, fun h => by simp at h⟩
            · rw [if_neg hf3]
              refine ⟨(finishMoveTx_spec db _ cid lid pos fail).1, fun h => ?_⟩
              have h4 := (finishMoveTx_spec db
                (openSlot (closeGap db c.list_id c.position) lid pos) cid lid pos fail).2 h
              rw [show moveCard db cid lid pos =
                finishMove (openSlot (closeGap db c.list_id c.position) lid pos)
                  cid lid pos from by
                simp only [moveCard, hf, if_neg hcl]]
              exact h4

theorem reorderListTx_atomic (db : DB) (lid : Nat) (pos : Int) (fail : Nat → Bool) :
    (∀ e, (reorderListTx db lid pos fail).response = .error e →
      (reorderListTx db lid pos fail).persisted = db) ∧
    ((reorderListTx db lid pos fail).response = .ok () →
      reorderList db lid pos = .ok (reorderListTx db lid pos fail).persisted) := by
  unfold reorderListTx
  by_cases h0 : fail 0 = true
  · rw [if_pos h0]
    exact ⟨fun e _ => rfl, fun h => by simp at h⟩
  · rw [if_neg h0]
    by_cases h1 : fail 1 = true
    · rw [if_pos h1]
      exact ⟨fun e _ => rfl, fun h => by simp at h⟩
    · rw [if_neg h1]
      cases hf : db.lists.find? (fun l => l.id == lid) with
      | none => exact ⟨fun e _ => rfl, fun h => by simp at h⟩
      | some cur =>
        dsimp only
        by_cases h2 : fail 2 = true
        · rw [if_pos h2]
          exact ⟨fun e _ => rfl, fun h => by simp at h⟩
        · rw [if_neg h2]
          by_cases h3 : fail 3 = true
          · rw [if_pos h3]
            exact ⟨fun e _ => rfl, fun h => by simp at h⟩
          · rw [if_neg h3]
            by_cases h5 : fail 5 = true
            · rw [if_pos h5]
              exact ⟨fun e _ => rfl, fun h => by simp at h⟩
            · rw [if_neg h5]
              refine ⟨fun e he => by simp at he, fun _ => ?_⟩
              simp only [reorderList, hf]

/-! ### The due-date handling -/

theorem digit_ne_T {ch : Char} (h : ch.isDigit = true) : (ch != 'T') = true := by
  by_cases hc : ch = 'T'
  · rw [hc] at h
    exact absurd h (by decide)
  · simp [hc]

theorem digit_not_ws {ch : Char} (h : ch.isDigit = true) : jsWhitespace ch = false := by
  by_cases hw : jsWhitespace ch = true
  · exfalso
    rcases List.any_eq_true.mp hw with ⟨w, hwmem, hweq⟩
    have hcw : ch = w := by simpa using hweq
    subst hcw
    have hall : jsWhitespaceChars.all (fun x => !x.isDigit) = true := by decide
    have hnd := List.all_eq_true.mp hall _ hwmem
    rw [h] at hnd
    exact absurd hnd (by decide)
  · exact Bool.not_eq_true _ |>.mp hw

theorem matchesDate_chars {s : String} (h : matchesDate s = true) :
    ∀ ch ∈ s.data, ch.isDigit = true ∨ ch = '-' := by
  unfold matchesDate at h
  split at h
  · rename_i y1 y2 y3 y4 h1 m1 m2 h2 d1 d2 heq
    simp only [Bool.and_eq_true, beq_iff_eq] at h
    intro ch hch
    rw [heq] at hch
    simp only [List.mem_cons, List.not_mem_nil, or_false] at hch
    rcases hch with rfl | rfl | rfl | rfl | rfl | rfl | rfl | rfl | rfl | rfl <;> tauto
  · exact absurd h (by simp)

theorem matchesDate_ne_nil {s : String} (h : matchesDate s = true) : s.data ≠ [] := by
  unfold matchesDate at h
  split at h
  · rename_i heq
    rw [heq]
    simp
  · exact absurd h (by simp)

theorem takeWhile_all {α : Type} (p : α → Bool) :
    ∀ l : List α, (∀ x ∈ l, p x = true) → l.takeWhile p = l := by
  intro l
  induction l with
  | nil => intro _; rfl
  | cons a t ih =>
    intro h
    rw [List.takeWhile_cons, h a (by simp), ih (fun x hx => h x (by simp [hx])),
      if_pos rfl]

theorem truncate_id {s : String} (h : matchesDate s = true) : truncateAtT s = s := by
  unfold truncateAtT
  rw [takeWhile_all _ _ (fun ch hch => by
    rcases matchesDate_chars h ch hch with hd | hd
    · exact digit_ne_T hd
    · rw [hd]; decide)]

theorem mem_dropWhile_of_mem {α : Type} (p : α → Bool) :
    ∀ (l : List α) (x : α), x ∈ l → p x = false → x ∈ l.dropWhile p := by
  intro l
  induction l with
  | nil => intro x hx; cases hx
  | cons a t ih =>
    intro x hx hpx
    rw [List.dropWhile_cons]
    by_cases hpa : p a = true
    · rw [if_pos hpa]
      rcases List.mem_cons.mp hx with rfl | hxt
      · rw [hpx] at hpa; cases hpa
      · exact ih x hxt hpx
    · rw [if_neg hpa]
      exact hx

theorem jsTrim_ne_empty {s : String} (ch : Char) (hch : ch ∈ s.data)
    (hws : jsWhitespace ch = false) : ¬ (jsTrim s = "") := by
  intro he
  unfold jsTrim at he
  have hl : ((s.data.dropWhile jsWhitespace).reverse.dropWhile
      jsWhitespace).reverse = [] := by
    have := congrArg String.data he
    simpa using this
  rw [List.reverse_eq_nil_iff, List.dropWhile_eq_nil_iff] at hl
  have h1 : ch ∈ s.data.dropWhile jsWhitespace :=
    mem_dropWhile_of_mem jsWhitespace s.data ch hch hws
  have h2 : ch ∈ (s.data.dropWhile jsWhitespace).reverse :=
    List.mem_reverse.mpr h1
  have := hl ch h2
  rw [hws] at this
  cases this

theorem formatDueDate_match {s : String} (h : matchesDate (truncateAtT s) = true) :
    formatDueDate (some s) = .ok (some (truncateAtT s)) := by
  have hne : (truncateAtT s).data ≠ [] := matchesDate_ne_nil h
  have hmem : ∀ ch ∈ (truncateAtT s).data, ch ∈ s.data := by
    intro ch hch
    unfold truncateAtT at hch
    have hsub : List.Sublist (s.data.takeWhile (fun c => c != 'T')) s.data :=
      List.takeWhile_sublist _
    exact hsub.subset (by simpa using hch)
  have hblank : ¬ (jsTrim s = "") := by
    cases hd : (truncateAtT s).data with
    | nil => exact absurd hd hne
    | cons ch rest =>
      have hch : ch ∈ (truncateAtT s).data := by rw [hd]; simp
      have hdig : ch.isDigit = true ∨ ch = '-' := matchesDate_chars h ch hch
      have hws : jsWhitespace ch = false := by
        rcases hdig with hdd | hdd
        · exact digit_not_ws hdd
        · rw [hdd]; decide
      exact jsTrim_ne_empty ch (hmem ch hch) hws
  unfold formatDueDate
  dsimp only
  rw [if_neg hblank, if_pos h]

theorem formatDueDate_plain {s : String} (h : matchesDate s = true) :
    formatDueDate (some s) = .ok (some s) := by
  have ht := truncate_id h
  have h2 : matchesDate (truncateAtT s) = true := by rw [ht]; exact h
  rw [formatDueDate_match h2, ht]

theorem formatDueDate_reject {s : String} (hb : ¬ (jsTrim s = ""))
    (h : matchesDate (truncateAtT s) = false) :
    formatDueDate (some s) = .error 400 := by
  unfold formatDueDate
  dsimp only
  rw [if_neg hb, if_neg (by rw [h]; simp)]

theorem formatDueDate_blank {s : String} (hb : jsTrim s = "") :
    formatDueDate (some s) = .ok none := by
  unfold formatDueDate
  dsimp only
  rw [if_pos hb]

theorem mergedDue_str (u : CardUpdates) (c : Card) (s : String)
    (h : u.due_date = some (some s)) : mergedDue u c = .strV s := by
  unfold mergedDue
  rw [h]

theorem mergedDue_date (u : CardUpdates) (c : Card) (s : String)
    (h1 : u.due_date = none) (h2 : c.due_date = some s) :
    mergedDue u c = .dateV s := by
  unfold mergedDue
  rw [h1]
  dsimp only
  rw [h2]

theorem mergedDue_keep_null (u : CardUpdates) (c : Card)
    (h1 : u.due_date = none) (h2 : c.due_date = none) :
    mergedDue u c = .nullV := by
  unfold mergedDue
  rw [h1]
  dsimp only
  rw [h2]

theorem putCard_found (db : DB) (cid : Nat) (u : CardUpdates) (c : Card)
    (hf : db.cards.find? (fun x => x.id == cid) = some c) :
    putCard db cid u =
      match mergedDue u c with
      | .nullV => some (.ok (putApply db cid u c none, none))
      | .dateV _ => none
      | .strV s =>
        match formatDueDate (some s) with
        | .error e => some (.error e)
        | .ok d => some (.ok (putApply db cid u c d, d)) := by
  unfold putCard
  rw [hf]

/-! ### Iterated appends -/

theorem addCard_group_self (db : DB) (lid : Nat) (t d p : String) (due : Option String) :
    cardPositions (addCard db lid t d p due).1 lid =
      cardPositions db lid ++ [nextPosition (cardPositions db lid)] := by
  rw [cardPositions_eq]
  show ((groupOf (db.cards ++
    [⟨db.nextCardId, lid, t, d, nextPosition (cardPositions db lid), p, due⟩])
    lid).map (fun x => x.position)) = _
  rw [groupOf_append, if_pos rfl, List.map_append, ← cardPositions_eq]
  rfl

theorem addList_board_self (db : DB) (bid : Nat) (t : String) :
    listPositions (addList db bid t).1 bid =
      listPositions db bid ++ [nextPosition (listPositions db bid)] := by
  rw [listPositions_eq]
  show ((boardOf (db.lists ++
    [⟨db.nextListId, bid, t, nextPosition (listPositions db bid)⟩])
    bid).map (fun l => l.position)) = _
  rw [boardOf_append, if_pos rfl, List.map_append, ← listPositions_eq]
  rfl

/-- k successive POST /api/cards calls into the same list. -/
def appendCards (db : DB) (lid : Nat) : Nat → DB
  | 0 => db
  | k + 1 => (addCard (appendCards db lid k) lid "card" "" "medium" none).1

/-- k successive POST /api/lists calls into the same board. -/
def appendLists (db : DB) (bid : Nat) : Nat → DB
  | 0 => db
  | k + 1 => (addList (appendLists db bid k) bid "list").1

theorem appendCards_positions (db : DB) (lid : Nat)
    (hempty : cardsInList db lid = []) :
    ∀ k, cardPositions (appendCards db lid k) lid = rangeInt k := by
  intro k
  induction k with
  | zero =>
    show (cardsInList db lid).map (fun c => c.position) = rangeInt 0
    rw [hempty]
    rfl
  | succ k ih =>
    show cardPositions (addCard (appendCards db lid k) lid "card" "" "medium" none).1 lid = _
    rw [addCard_group_self, ih, nextPosition_dense (dense_rangeInt k), rangeInt_length,
      rangeInt_succ]

theorem appendLists_positions (db : DB) (bid : Nat)
    (hempty : listsInBoard db bid = []) :
    ∀ k, listPositions (appendLists db bid k) bid = rangeInt k := by
  intro k
  induction k with
  | zero =>
    show (listsInBoard db bid).map (fun l => l.position) = rangeInt 0
    rw [hempty]
    rfl
  | succ k ih =>
    show listPositions (addList (appendLists db bid k) bid "list").1 bid = _
    rw [addList_board_self, ih, nextPosition_dense (dense_rangeInt k), rangeInt_length,
      rangeInt_succ]

theorem applyOps_cons (db : DB) (op : Op) (ops : List Op) :
    applyOps db (op :: ops) = applyOps (applyOp db op) ops := rfl

theorem trace_preserves (ops : List Op) : ∀ (db : DB), Trace db ops →
    db.wf → db.dense → (applyOps db ops).wf ∧ (applyOps db ops).dense := by
  induction ops with
  | nil => intro db _ hwf hdense; exact ⟨hwf, hdense⟩
  | cons op ops ih =>
    intro db htr hwf hdense
    cases htr with
    | cons hallow htail =>
      rw [applyOps_cons]
      have hstep : (applyOp db op).wf ∧ (applyOp db op).dense := by
        cases op with
        | addL bid title => exact preserve_addL db bid title hwf hdense
        | addC lid t d p due => exact preserve_addC db lid t d p due hwf hdense
        | move cid lid pos => exact preserve_move db cid lid pos hwf hdense hallow
        | reorder lid pos => exact preserve_reorder db lid pos hwf hdense
        | delC cid => exact absurd hallow (by simp [allowed])
        | delL lid => exact absurd hallow (by simp [allowed])
      exact ih (applyOp db op) htail hstep.1 hstep.2

theorem find?_map_key (cards : List Card) (u : Card → Card) (cid : Nat)
    (h : ∀ x, (u x).id = x.id) :
    (cards.map u).find? (fun x => x.id == cid) =
      (cards.find? (fun x => x.id == cid)).map u := by
  induction cards with
  | nil => rfl
  | cons a t ih =>
    rw [List.map_cons]
    simp only [List.find?]
    rw [h a]
    cases hacid : (a.id == cid) with
    | true => rfl
    | false => exact ih

/-! ### Concrete fixtures -/

/-- The empty store, as right after CREATE TABLE. -/
def dbEmpty : DB := ⟨[], [], 0, 0⟩

/-- One board (id 1) holding two lists at dense positions 0 and 1. -/
def dbBoard2 : DB := ⟨[⟨1, 1, "L1", 0⟩, ⟨2, 1, "L2", 1⟩], [], 3, 0⟩

/-- One list (id 1) holding two cards at dense positions 0 and 1. -/
def dbCards2 : DB :=
  ⟨[⟨1, 1, "L", 0⟩],
   [⟨1, 1, "a", "", 0, "medium", none⟩, ⟨2, 1, "b", "", 1, "medium", none⟩], 2, 3⟩

/-- Two lists; list 1 holds cards A, B, C at positions 0, 1, 2. -/
def dbMove3 : DB :=
  ⟨[⟨1, 1, "L1", 0⟩, ⟨2, 1, "L2", 1⟩],
   [⟨10, 1, "A", "", 0, "medium", none⟩, ⟨11, 1, "B", "", 1, "medium", none⟩,
    ⟨12, 1, "C", "", 2, "medium", none⟩], 3, 20⟩

/-- Two lists; list 1 holds X, Y at 0, 1 and list 2 holds Z at 0. -/
def dbCross3 : DB :=
  ⟨[⟨1, 1, "L1", 0⟩, ⟨2, 1, "L2", 1⟩],
   [⟨10, 1, "X", "", 0, "medium", none⟩, ⟨11, 1, "Y", "", 1, "medium", none⟩,
    ⟨12, 2, "Z", "", 0, "medium", none⟩], 3, 20⟩

/-- One list (id 1) with a single card; list 2 does not exist. -/
def dbOne : DB := ⟨[⟨1, 1, "L", 0⟩], [⟨1, 1, "x", "", 0, "medium", none⟩], 2, 2⟩

/-- One list with one card that carries a stored due date. -/
def dbDue : DB :=
  ⟨[⟨1, 1, "L", 0⟩], [⟨1, 1, "x", "", 0, "medium", some "2024-01-01"⟩], 2, 2⟩

/-- The fail oracle that makes the second bounded shift (sub-step 3) fail. -/
def failAt3 : Nat → Bool := fun k => k == 3

/-! ### The claims -/

/-- Claim C1, counterexample: the claim quantifies over sequences that include
delete, but DELETE /api/lists/:id issues a bare DELETE with no renumbering, so
deleting the list at position 0 of a dense 2-list board leaves positions
at the set containing only 1, not the set containing only 0. -/
theorem claim_C1_counterexample :
    dbBoard2.wf ∧ Dense (listPositions dbBoard2 1) ∧
    listPositions (applyOps dbBoard2 [Op.delL 1]) 1 = [1] ∧
    ¬ Dense (listPositions (applyOps dbBoard2 [Op.delL 1]) 1) := by decide

/-- Claim C1 (amended): starting from a well-formed dense store, after any
completed sequence of appends, in-range card moves (within or across lists)
and list reorders — deletes excluded, since the source never renumbers after
DELETE — every board's list positions and every list's card positions are
exactly 0..n-1. -/
theorem claim_C1 (db : DB) (ops : List Op) (htr : Trace db ops)
    (hwf : db.wf) (hdense : db.dense) :
    (∀ bid, Dense (listPositions (applyOps db ops) bid)) ∧
    (∀ lid, Dense (cardPositions (applyOps db ops) lid)) :=
  (trace_preserves ops db htr hwf hdense).2

/-- The empty store satisfies both invariants. -/
theorem dbEmpty_wf_dense : dbEmpty.wf ∧ dbEmpty.dense := by
  refine ⟨by decide, ?_, ?_⟩
  · intro bid
    show Dense []
    decide
  · intro lid
    show Dense []
    decide

/-- A trace that builds two lists and two cards, moves a card and reorders a
list, each step allowed. -/
theorem traceW : Trace dbEmpty
    [Op.addL 1 "a", Op.addL 1 "b", Op.addC 0 "c1" "" "medium" none,
     Op.addC 0 "c2" "" "medium" none, Op.move 1 0 0, Op.reorder 0 7] :=
  Trace.cons (by decide) (Trace.cons (by decide) (Trace.cons (by decide)
    (Trace.cons (by decide) (Trace.cons (by decide) (Trace.cons (by decide)
      (Trace.nil _))))))

theorem claim_C1_witness :
    (∀ bid, Dense (listPositions (applyOps dbEmpty
      [Op.addL 1 "a", Op.addL 1 "b", Op.addC 0 "c1" "" "medium" none,
       Op.addC 0 "c2" "" "medium" none, Op.move 1 0 0, Op.reorder 0 7]) bid)) ∧
    (∀ lid, Dense (cardPositions (applyOps dbEmpty
      [Op.addL 1 "a", Op.addL 1 "b", Op.addC 0 "c1" "" "medium" none,
       Op.addC 0 "c2" "" "medium" none, Op.move 1 0 0, Op.reorder 0 7]) lid)) :=
  claim_C1 dbEmpty _ traceW dbEmpty_wf_dense.1 dbEmpty_wf_dense.2

/-- Claim C4, counterexample: DELETE /api/cards/:id does not decrement the
later positions — deleting the card at position 0 of a dense 2-card list
leaves the survivor at position 1, not 0. -/
theorem claim_C4_counterexample :
    Dense (cardPositions dbCards2 1) ∧
    cardPositions (deleteCard dbCards2 1) 1 = [1] ∧
    ¬ Dense (cardPositions (deleteCard dbCards2 1) 1) := by decide

/-- Claim C4 (amended): deleting the item at position p removes exactly the
rows with that id and leaves every remaining row byte-identical — no
renumbering happens, so a dense group of size n is left with positions
0..n-1 minus p (a gap at p) instead of 0..n-2. Cards and lists behave alike. -/
theorem claim_C4 (db : DB) :
    (∀ cid, (deleteCard db cid).cards = db.cards.filter (fun x => x.id != cid)) ∧
    (∀ cid c, (db.cards.map (fun x => x.id)).Nodup → c ∈ db.cards → c.id = cid →
      Dense (cardPositions db c.list_id) →
      List.Perm (cardPositions (deleteCard db cid) c.list_id)
        ((rangeInt (cardPositions db c.list_id).length).erase c.position)) ∧
    (∀ lid, (deleteList db lid).lists = db.lists.filter (fun x => x.id != lid)) ∧
    (∀ lid l, (db.lists.map (fun x => x.id)).Nodup → l ∈ db.lists → l.id = lid →
      Dense (listPositions db l.board_id) →
      List.Perm (listPositions (deleteList db lid) l.board_id)
        ((rangeInt (listPositions db l.board_id).length).erase l.position)) := by
  refine ⟨fun _ => rfl, ?_, fun _ => rfl, ?_⟩
  · intro cid c hnd hc hid hdense
    exact (deleteCard_group_positions db cid c hnd hc hid).trans
      (hdense.erase c.position)
  · intro lid l hnd hl hid hdense
    exact (deleteList_board_positions db lid l hnd hl hid).trans
      (hdense.erase l.position)

theorem claim_C4_witness :
    List.Perm (cardPositions (deleteCard dbCards2 1) 1)
      ((rangeInt (cardPositions dbCards2 1).length).erase 0) :=
  (claim_C4 dbCards2).2.1 1 ⟨1, 1, "a", "", 0, "medium", none⟩
    (by decide) (by decide) rfl (by decide)

/-- Claim C5 (confirmed): in a transactional run of the card-move route or
the list-reorder route, any sub-step failure rolls everything back — the
persisted state is exactly the pre-operation state and an error is reported
— and a reported success persists exactly the full effect of the pure
operation; a partial shift is never committed. -/
theorem claim_C5 (db : DB) (cid lid : Nat) (pos : Int) (lid2 : Nat) (pos2 : Int)
    (fail : Nat → Bool) :
    (∀ e, (moveCardTx db cid lid pos fail).response = .error e →
      (moveCardTx db cid lid pos fail).persisted = db) ∧
    ((moveCardTx db cid lid pos fail).response = .ok () →
      moveCard db cid lid pos = .ok (moveCardTx db cid lid pos fail).persisted) ∧
    (∀ e, (reorderListTx db lid2 pos2 fail).response = .error e →
      (reorderListTx db lid2 pos2 fail).persisted = db) ∧
    ((reorderListTx db lid2 pos2 fail).response = .ok () →
      reorderList db lid2 pos2 = .ok (reorderListTx db lid2 pos2 fail).persisted) :=
  ⟨(moveCardTx_atomic db cid lid pos fail).1,
   (moveCardTx_atomic db cid lid pos fail).2,
   (reorderListTx_atomic db lid2 pos2 fail).1,
   (reorderListTx_atomic db lid2 pos2 fail).2⟩

theorem claim_C5_witness :
    (moveCardTx dbCross3 10 2 1 failAt3).persisted = dbCross3 :=
  (claim_C5 dbCross3 10 2 1 1 0 failAt3).1 500 (by decide)

/-- Claim C7 (confirmed): appending assigns position max+1, or 0 on an empty
group, changes no other row, and appending k items into an empty group yields
positions 0..k-1 in insertion order — for cards in a list and lists in a
board alike. -/
theorem claim_C7 (db : DB) (lid bid : Nat) (t d p : String) (due : Option String)
    (ti : String) :
    (cardsInList db lid = [] → (addCard db lid t d p due).2.position = 0) ∧
    (∀ m, maxPos (cardPositions db lid) = some m →
      (addCard db lid t d p due).2.position = m + 1) ∧
    ((addCard db lid t d p due).1.cards = db.cards ++ [(addCard db lid t d p due).2]) ∧
    (listsInBoard db bid = [] → (addList db bid ti).2.position = 0) ∧
    (∀ m, maxPos (listPositions db bid) = some m →
      (addList db bid ti).2.position = m + 1) ∧
    ((addList db bid ti).1.lists = db.lists ++ [(addList db bid ti).2]) ∧
    (cardsInList db lid = [] →
      ∀ k, cardPositions (appendCards db lid k) lid = rangeInt k) ∧
    (listsInBoard db bid = [] →
      ∀ k, listPositions (appendLists db bid k) bid = rangeInt k) := by
  refine ⟨?_, ?_, rfl, ?_, ?_, rfl, appendCards_positions db lid,
    appendLists_positions db bid⟩
  · intro hempty
    show nextPosition ((cardsInList db lid).map (fun c => c.position)) = 0
    rw [hempty]
    rfl
  · intro m hm
    show nextPosition (cardPositions db lid) = m + 1
    unfold nextPosition
    rw [hm]
  · intro hempty
    show nextPosition ((listsInBoard db bid).map (fun l => l.position)) = 0
    rw [hempty]
    rfl
  · intro m hm
    show nextPosition (listPositions db bid) = m + 1
    unfold nextPosition
    rw [hm]

theorem claim_C7_witness :
    (cardsInList dbEmpty 5 = [] → (addCard dbEmpty 5 "t" "" "medium" none).2.position = 0) ∧
    (∀ m, maxPos (cardPositions dbEmpty 5) = some m →
      (addCard dbEmpty 5 "t" "" "medium" none).2.position = m + 1) ∧
    ((addCard dbEmpty 5 "t" "" "medium" none).1.cards =
      dbEmpty.cards ++ [(addCard dbEmpty 5 "t" "" "medium" none).2]) ∧
    (listsInBoard dbEmpty 1 = [] → (addList dbEmpty 1 "l").2.position = 0) ∧
    (∀ m, maxPos (listPositions dbEmpty 1) = some m →
      (addList dbEmpty 1 "l").2.position = m + 1) ∧
    ((addList dbEmpty 1 "l").1.lists = dbEmpty.lists ++ [(addList dbEmpty 1 "l").2]) ∧
    (cardsInList dbEmpty 5 = [] →
      ∀ k, cardPositions (appendCards dbEmpty 5 k) 5 = rangeInt k) ∧
    (listsInBoard dbEmpty 1 = [] →
      ∀ k, listPositions (appendLists dbEmpty 1 k) 1 = rangeInt k) :=
  claim_C7 dbEmpty 5 1 "t" "" "medium" none "l"

/-- Claim C10 (confirmed): reordering an existing list with any integer
target position — negative or past the end included, thanks to the splice
index clamping — rewrites the board's list positions to the indices of the
resequenced in-memory list, so they are exactly 0..n-1 afterwards. -/
theorem claim_C10 (db : DB) (lid : Nat) (pos : Int) (l : KList)
    (hnd : (db.lists.map (fun x => x.id)).Nodup)
    (hl : l ∈ db.lists) (hid : l.id = lid) :
    ∃ db1, reorderList db lid pos = .ok db1 ∧
      db1.lists = reorderedLists db l pos ∧
      List.Perm (listPositions db1 l.board_id)
        (rangeInt (listsInBoard db l.board_id).length) ∧
      Dense (listPositions db1 l.board_id) ∧
      (listPositions db1 l.board_id).length = (listPositions db l.board_id).length := by
  have hf : db.lists.find? (fun x => x.id == lid) = some l :=
    find_key_some (fun x : KList => x.id) lid db.lists l hnd hl hid
  have hperm := reorder_board_perm db pos l hnd hl
  refine ⟨_, by simp only [reorderList, hf], rfl, hperm, ?_, ?_⟩
  · exact dense_perm hperm.symm (dense_rangeInt _)
  · have h1 := hperm.length_eq
    rw [rangeInt_length] at h1
    rw [h1, listPositions_eq, List.length_map, listsInBoard_eq_boardOf]

theorem claim_C10_witness :
    (∃ db1, reorderList dbBoard2 2 (-3) = .ok db1 ∧
      db1.lists = reorderedLists dbBoard2 ⟨2, 1, "L2", 1⟩ (-3) ∧
      List.Perm (listPositions db1 1) (rangeInt (listsInBoard dbBoard2 1).length) ∧
      Dense (listPositions db1 1) ∧
      (listPositions db1 1).length = (listPositions dbBoard2 1).length) ∧
    (∃ db1, reorderList dbBoard2 1 99 = .ok db1 ∧
      db1.lists = reorderedLists dbBoard2 ⟨1, 1, "L1", 0⟩ 99 ∧
      List.Perm (listPositions db1 1) (rangeInt (listsInBoard dbBoard2 1).length) ∧
      Dense (listPositions db1 1) ∧
      (listPositions db1 1).length = (listPositions dbBoard2 1).length) :=
  ⟨claim_C10 dbBoard2 2 (-3) ⟨2, 1, "L2", 1⟩ (by decide) (by decide) rfl,
   claim_C10 dbBoard2 1 99 ⟨1, 1, "L1", 0⟩ (by decide) (by decide) rfl⟩

/-- Claim C2 (confirmed): a same-list move of the card at position p to an
in-range target t of a dense group shifts exactly the other cards between the
two slots — down by one on the interval from p exclusive to t inclusive when
t is after p, up by one on the interval from t inclusive to p exclusive when
t is before p — sets the moved card to t, and reports success without any
change when t equals p. -/
theorem claim_C2 (db : DB) (cid lid : Nat) (t : Int) (c : Card)
    (hnd : (db.cards.map (fun x => x.id)).Nodup)
    (hc : c ∈ db.cards) (hid : c.id = cid) (hl : c.list_id = lid)
    (hex : listExists db lid = true)
    (hdense : Dense (cardPositions db lid))
    (ht0 : 0 ≤ t) (htn : t < ((cardPositions db lid).length : Int)) :
    (c.position < t → moveCard db cid lid t =
      .ok { db with cards := db.cards.map (withinDownF cid lid c.position t) }) ∧
    (t < c.position → moveCard db cid lid t =
      .ok { db with cards := db.cards.map (withinUpF cid lid t c.position) }) ∧
    (t = c.position → moveCard db cid lid t = .ok db) := by
  have hf := find_key_some (fun x : Card => x.id) cid db.cards c hnd hc hid
  exact ⟨fun h => moveCard_within_down db cid lid t c hf hl hex h,
         fun h => moveCard_within_up db cid lid t c hf hl hex h,
         fun h => moveCard_within_same db cid lid t c hf hl h⟩

theorem claim_C2_witness :
    (moveCard dbMove3 12 1 0 =
      .ok { dbMove3 with cards := dbMove3.cards.map (withinUpF 12 1 0 2) }) ∧
    cardPositions { dbMove3 with cards := dbMove3.cards.map (withinUpF 12 1 0 2) } 1 =
      [1, 2, 0] :=
  ⟨(claim_C2 dbMove3 12 1 0 ⟨12, 1, "C", "", 2, "medium", none⟩ (by decide) (by decide)
      rfl rfl (by decide) (by decide) (by decide) (by decide)).2.1 (by decide),
   by decide⟩

/-- Claim C3 (confirmed): moving a card from its list A to a different
existing list B at an in-range target t closes the gap in A (positions past
p decrement), opens a slot in B (positions from t on increment), and lands
the moved card in B at exactly t; afterwards A holds one card fewer and B
one more, both dense. -/
theorem claim_C3 (db : DB) (cid lid : Nat) (t : Int) (c : Card)
    (hnd : (db.cards.map (fun x => x.id)).Nodup)
    (hc : c ∈ db.cards) (hid : c.id = cid) (hl : c.list_id ≠ lid)
    (hex : listExists db lid = true)
    (hdense : ∀ g, Dense (cardPositions db g))
    (ht0 : 0 ≤ t) (htn : t ≤ ((cardPositions db lid).length : Int)) :
    ∃ db1, moveCard db cid lid t = .ok db1 ∧
      db1.cards = db.cards.map (crossF cid c.list_id c.position lid t) ∧
      Dense (cardPositions db1 c.list_id) ∧
      (cardPositions db1 c.list_id).length = (cardPositions db c.list_id).length - 1 ∧
      Dense (cardPositions db1 lid) ∧
      (cardPositions db1 lid).length = (cardPositions db lid).length + 1 ∧
      (∀ x ∈ db1.cards, x.id = cid → x.list_id = lid ∧ x.position = t) := by
  have hf := find_key_some (fun x : Card => x.id) cid db.cards c hnd hc hid
  have hsrc := perm_cross_source db cid lid t c hnd hc hid hl hdense
  have htgt := perm_cross_target db cid lid t c hnd hc hid hl hdense ht0 htn
  refine ⟨_, moveCard_cross db cid lid t c hf hl hex, rfl, ?_, ?_, ?_, ?_, ?_⟩
  · exact dense_perm hsrc.symm (dense_rangeInt _)
  · have h1 := hsrc.length_eq
    rwa [rangeInt_length] at h1
  · exact dense_perm htgt.symm (dense_rangeInt _)
  · have h1 := htgt.length_eq
    rwa [rangeInt_length] at h1
  · intro x hx hxid
    rcases List.mem_map.mp hx with ⟨y, _, rfl⟩
    have hyid : y.id = cid := by
      rw [← crossF_id cid c.list_id c.position lid t y]
      exact hxid
    constructor
    · show (crossF cid c.list_id c.position lid t y).list_id = lid
      unfold crossF
      rw [if_pos hyid]
    · show (crossF cid c.list_id c.position lid t y).position = t
      unfold crossF
      rw [if_pos hyid]

theorem dbCross3_dense (g : Nat) : Dense (cardPositions dbCross3 g) := by
  by_cases h1 : g = 1
  · subst h1; decide
  by_cases h2 : g = 2
  · subst h2; decide
  have he : cardsInList dbCross3 g = [] := by
    rw [cardsInList, List.filter_eq_nil_iff]
    intro c hc
    simp only [dbCross3, List.mem_cons, List.not_mem_nil, or_false] at hc
    rcases hc with h | h | h <;> subst h <;> simp [beq_iff_eq] <;> omega
  have he2 : cardPositions dbCross3 g = [] := by
    rw [cardPositions, he]
    rfl
  rw [he2]
  decide

theorem claim_C3_witness :
    ∃ db1, moveCard dbCross3 10 2 1 = .ok db1 ∧
      db1.cards = dbCross3.cards.map (crossF 10 1 0 2 1) ∧
      Dense (cardPositions db1 1) ∧
      (cardPositions db1 1).length = (cardPositions dbCross3 1).length - 1 ∧
      Dense (cardPositions db1 2) ∧
      (cardPositions db1 2).length = (cardPositions dbCross3 2).length + 1 ∧
      (∀ x ∈ db1.cards, x.id = 10 → x.list_id = 2 ∧ x.position = 1) := by
  exact claim_C3 dbCross3 10 2 1 ⟨10, 1, "X", "", 0, "medium", none⟩ (by decide)
    (by decide) rfl (by decide) (by decide) dbCross3_dense (by decide) (by decide)

/-- Claim C8, counterexample: moving an existing card towards a target list
that does not resolve is aborted by the cards.list_id foreign key and
answered 500 — not the claimed 404. -/
theorem claim_C8_counterexample :
    (moveCardTx dbOne 1 2 0 noFail).response = .error 500 ∧
    (Except.error 500 : Except Nat Unit) ≠ .error 404 := by decide

/-- Claim C8 (amended): a move whose card id does not resolve rolls back and
answers 404 with the store unchanged; a move towards a list id that resolves
to no row is aborted by the foreign-key constraint on the final UPDATE and
answered as a 500 store error, again with the store unchanged — not 404. -/
theorem claim_C8 (db : DB) (cid lid : Nat) (pos : Int) :
    ((∀ x ∈ db.cards, x.id ≠ cid) →
      moveCardTx db cid lid pos noFail = ⟨db, .error 404⟩) ∧
    (∀ c, c ∈ db.cards → c.id = cid → (db.cards.map (fun x => x.id)).Nodup →
      (∀ l ∈ db.lists, l.id ≠ lid) → (c.list_id ≠ lid ∨ pos ≠ c.position) →
      moveCardTx db cid lid pos noFail = ⟨db, .error 500⟩) := by
  constructor
  · intro hno
    have hf : db.cards.find? (fun x => x.id == cid) = none :=
      find_key_none (fun x : Card => x.id) cid db.cards hno
    simp [moveCardTx, hf, noFail]
  · intro c hmem hcid hnd hlists hdisj
    have hf : db.cards.find? (fun x => x.id == cid) = some c :=
      find_key_some (fun x : Card => x.id) cid db.cards c hnd hmem hcid
    have hlex : listExists db lid = false := by
      cases hany : db.lists.any (fun l => l.id == lid) with
      | false => exact hany
      | true =>
        exfalso
        rcases List.any_eq_true.mp hany with ⟨l, hlm, hll⟩
        exact hlists l hlm (by simpa using hll)
    by_cases hcl : c.list_id = lid
    · have hpos : pos ≠ c.position := by
        rcases hdisj with h | h
        · exact absurd hcl h
        · exact h
      rcases lt_trichotomy c.position pos with h2 | h2 | h2
      · simp [moveCardTx, hf, noFail, finishMoveTx, hcl, h2, listExists_shiftDown, hlex]
      · exact absurd h2.symm hpos
      · simp [moveCardTx, hf, noFail, finishMoveTx, hcl, h2, asymm h2,
          listExists_shiftUp, hlex]
    · simp [moveCardTx, hf, noFail, finishMoveTx, hcl, listExists_openSlot,
        listExists_closeGap, hlex]

theorem claim_C8_witness :
    moveCardTx dbOne 7 1 0 noFail = ⟨dbOne, .error 404⟩ ∧
    moveCardTx dbOne 1 2 0 noFail = ⟨dbOne, .error 500⟩ :=
  ⟨(claim_C8 dbOne 7 1 0).1 (by decide),
   (claim_C8 dbOne 1 2 0).2 ⟨1, 1, "x", "", 0, "medium", none⟩ (by decide) rfl
     (by decide) (by decide) (by decide)⟩

/-- Claim C9, counterexample: an empty due_date string does not match the
date pattern after truncation, yet the routes store NULL and succeed instead
of rejecting it with 400. -/
theorem claim_C9_counterexample :
    formatDueDate (some "") = .ok none ∧
    matchesDate (truncateAtT "") = false ∧
    (Except.ok (none : Option String) : Except Nat (Option String)) ≠
      .error 400 := by decide

/-- Claim C9 (amended): a due_date matching YYYY-MM-DD is stored and answered
unchanged, one with a time portion after T is truncated to its date part and
then stored and answered as that plain string, and any other non-blank string
is rejected with 400 — except that an empty or JavaScript-whitespace-only
string is treated as absent and stored as NULL rather than rejected. The
create route persists and returns exactly the formatted string, and so does
the update route when the request body carries due_date; but when the body
omits due_date and the card has a stored date, the driver hands the guard a
JS Date whose missing trim method throws, so no response is sent at all on
that path (a stored NULL behaves as absent and succeeds). -/
theorem claim_C9 :
    (∀ s, matchesDate s = true → formatDueDate (some s) = .ok (some s)) ∧
    (∀ s, matchesDate (truncateAtT s) = true →
      formatDueDate (some s) = .ok (some (truncateAtT s))) ∧
    (∀ s, ¬ (jsTrim s = "") → matchesDate (truncateAtT s) = false →
      formatDueDate (some s) = .error 400) ∧
    (∀ s, jsTrim s = "" → formatDueDate (some s) = .ok none) ∧
    (∀ db lid title dsc pr due d, formatDueDate due = .ok d →
      ∃ db1 c1, postCard db lid title dsc pr due = .ok (db1, c1) ∧
        c1.due_date = d ∧ db1.cards = db.cards ++ [c1]) ∧
    (∀ db lid title dsc pr due e, formatDueDate due = .error e →
      postCard db lid title dsc pr due = .error e) ∧
    (∀ db cid u c s d, db.cards.find? (fun x => x.id == cid) = some c →
      u.due_date = some (some s) → formatDueDate (some s) = .ok d →
      putCard db cid u = some (.ok (putApply db cid u c d, d)) ∧
      ∀ x ∈ (putApply db cid u c d).cards, x.id = cid → x.due_date = d) ∧
    (∀ db cid u c s e, db.cards.find? (fun x => x.id == cid) = some c →
      u.due_date = some (some s) → formatDueDate (some s) = .error e →
      putCard db cid u = some (.error e)) ∧
    (∀ db cid u c s, db.cards.find? (fun x => x.id == cid) = some c →
      u.due_date = none → c.due_date = some s → putCard db cid u = none) ∧
    (∀ db cid u c, db.cards.find? (fun x => x.id == cid) = some c →
      u.due_date = none → c.due_date = none →
      putCard db cid u = some (.ok (putApply db cid u c none, none))) := by
  refine ⟨fun s h => formatDueDate_plain h, fun s h => formatDueDate_match h,
    fun s hb h => formatDueDate_reject hb h, fun s hb => formatDueDate_blank hb,
    ?_, ?_, ?_, ?_, ?_, ?_⟩
  · intro db lid title dsc pr due d hfmt
    refine ⟨(addCard db lid title (dsc.getD "") (pr.getD "medium") d).1,
            (addCard db lid title (dsc.getD "") (pr.getD "medium") d).2, ?_, rfl, rfl⟩
    unfold postCard
    rw [hfmt]
  · intro db lid title dsc pr due e hfmt
    unfold postCard
    rw [hfmt]
  · intro db cid u c s d hf hdd hfmt
    constructor
    · rw [putCard_found db cid u c hf, mergedDue_str u c s hdd]
      dsimp only
      rw [hfmt]
    · intro x hx hxid
      unfold putApply at hx
      rcases List.mem_map.mp hx with ⟨y, _, rfl⟩
      by_cases hy : y.id = cid
      · rw [if_pos hy]
      · rw [if_neg hy] at hxid
        exact absurd hxid hy
  · intro db cid u c s e hf hdd hfmt
    rw [putCard_found db cid u c hf, mergedDue_str u c s hdd]
    dsimp only
    rw [hfmt]
  · intro db cid u c s hf hdd hcd
    rw [putCard_found db cid u c hf, mergedDue_date u c s hdd hcd]
  · intro db cid u c hf hdd hcd
    rw [putCard_found db cid u c hf, mergedDue_keep_null u c hdd hcd]

theorem claim_C9_witness :
    formatDueDate (some "2024-03-15") = .ok (some "2024-03-15") ∧
    formatDueDate (some "2024-03-15T00:00:00.000Z") =
      .ok (some (truncateAtT "2024-03-15T00:00:00.000Z")) ∧
    formatDueDate (some "15/03/2024") = .error 400 ∧
    formatDueDate (some "\u00A0") = .ok none ∧
    putCard dbDue 1 ⟨none, none, none, none⟩ = none :=
  ⟨claim_C9.1 "2024-03-15" (by decide),
   claim_C9.2.1 "2024-03-15T00:00:00.000Z" (by decide),
   claim_C9.2.2.1 "15/03/2024" (by decide) (by decide),
   claim_C9.2.2.2.1 "\u00A0" (by decide),
   claim_C9.2.2.2.2.2.2.2.2.1 dbDue 1 ⟨none, none, none, none⟩
     ⟨1, 1, "x", "", 0, "medium", some "2024-01-01"⟩ "2024-01-01"
     (by decide) rfl rfl⟩

/-- Claim C6 (confirmed): within a dense list, moving the card sitting at
position p to an in-range target t and then moving it from t back to p
restores the store exactly, every card back at its original position. -/
theorem claim_C6 (db : DB) (cid lid : Nat) (t : Int) (c : Card)
    (hnd : (db.cards.map (fun x => x.id)).Nodup)
    (hc : c ∈ db.cards) (hid : c.id = cid) (hl : c.list_id = lid)
    (hex : listExists db lid = true)
    (hdense : Dense (cardPositions db lid))
    (ht0 : 0 ≤ t) (htn : t < ((cardPositions db lid).length : Int)) :
    ∃ db1, moveCard db cid lid t = .ok db1 ∧
      moveCard db1 cid lid c.position = .ok db := by
  have hf := find_key_some (fun x : Card => x.id) cid db.cards c hnd hc hid
  have hposnd : (cardPositions db lid).Nodup :=
    hdense.nodup_iff.mpr (rangeInt_nodup _)
  have hpne : ∀ x, x ∈ db.cards → x.list_id = lid → x.id ≠ cid →
      x.position ≠ c.position := by
    intro x hx hxl hxi hcontra
    rw [cardPositions_eq] at hposnd
    have hxg : x ∈ groupOf db.cards lid := mem_groupOf.mpr ⟨hx, hxl⟩
    have hcg : c ∈ groupOf db.cards lid := mem_groupOf.mpr ⟨hc, hl⟩
    have hxc : x = c := List.inj_on_of_nodup_map hposnd hxg hcg hcontra
    exact hxi (by rw [hxc, hid])
  rcases lt_trichotomy t c.position with ht | ht | ht
  · refine ⟨_, moveCard_within_up db cid lid t c hf hl hex ht, ?_⟩
    have hFc : withinUpF cid lid t c.position c =
        { c with list_id := lid, position := t } := by
      unfold withinUpF
      rw [if_pos hid]
    have hf1 : (db.cards.map (withinUpF cid lid t c.position)).find?
        (fun x => x.id == cid) = some { c with list_id := lid, position := t } := by
      rw [find?_map_key db.cards _ cid (fun x => withinUpF_id cid lid t c.position x),
        hf]
      rw [Option.map_some', hFc]
    have hex1 : listExists { db with cards := db.cards.map (withinUpF cid lid t c.position) } lid = true := hex
    have happly := moveCard_within_down
      { db with cards := db.cards.map (withinUpF cid lid t c.position) }
      cid lid c.position { c with list_id := lid, position := t } hf1 rfl hex1 ht
    rw [happly]
    have hcomp : ∀ x ∈ db.cards,
        withinDownF cid lid t c.position (withinUpF cid lid t c.position x) = x := by
      intro x hx
      by_cases hxid : x.id = cid
      · have hxc : x = c :=
          List.inj_on_of_nodup_map hnd hx hc (by rw [hxid, hid])
        subst hxc
        unfold withinUpF withinDownF
        rw [if_pos hxid]
        dsimp only
        rw [if_pos hxid]
        rw [← hl]
      · rcases x with ⟨i0, l0, ti, de, p0, pr, du⟩
        have hxid2 : ¬ i0 = cid := hxid
        have hpne2 : l0 = lid → p0 ≠ c.position := fun hll =>
          hpne ⟨i0, l0, ti, de, p0, pr, du⟩ hx hll hxid
        unfold withinUpF withinDownF
        dsimp only
        rw [if_neg hxid2]
        by_cases hsh : l0 = lid ∧ t ≤ p0 ∧ p0 < c.position
        · rw [if_pos hsh]
          dsimp only
          rw [if_neg hxid2]
          rw [if_pos (show l0 = lid ∧ t < p0 + 1 ∧ p0 + 1 ≤ c.position from
            ⟨hsh.1, by omega, by omega⟩)]
          have hp : p0 + 1 - 1 = p0 := by omega
          rw [hp]
        · rw [if_neg hsh]
          have hnot : ¬ (l0 = lid ∧ t < p0 ∧ p0 ≤ c.position) := by
            rintro ⟨hll, hlt, hle⟩
            have hne := hpne2 hll
            exact hsh ⟨hll, by omega, by omega⟩
          rw [if_neg hxid2, if_neg hnot]
    show Except.ok ({ db with cards := (db.cards.map (withinUpF cid lid t c.position)).map (withinDownF cid lid t c.position) } : DB) = .ok db
    rw [List.map_map]
    rw [map_eq_self db.cards (withinDownF cid lid t c.position ∘ withinUpF cid lid t c.position) hcomp]
  · exact ⟨db, moveCard_within_same db cid lid t c hf hl ht,
      moveCard_within_same db cid lid c.position c hf hl rfl⟩
  · refine ⟨_, moveCard_within_down db cid lid t c hf hl hex ht, ?_⟩
    have hFc : withinDownF cid lid c.position t c =
        { c with list_id := lid, position := t } := by
      unfold withinDownF
      rw [if_pos hid]
    have hf1 : (db.cards.map (withinDownF cid lid c.position t)).find?
        (fun x => x.id == cid) = some { c with list_id := lid, position := t } := by
      rw [find?_map_key db.cards _ cid (fun x => withinDownF_id cid lid c.position t x),
        hf]
      rw [Option.map_some', hFc]
    have hex1 : listExists { db with cards := db.cards.map (withinDownF cid lid c.position t) } lid = true := hex
    have happly := moveCard_within_up
      { db with cards := db.cards.map (withinDownF cid lid c.position t) }
      cid lid c.position { c with list_id := lid, position := t } hf1 rfl hex1 ht
    rw [happly]
    have hcomp : ∀ x ∈ db.cards,
        withinUpF cid lid c.position t (withinDownF cid lid c.position t x) = x := by
      intro x hx
      by_cases hxid : x.id = cid
      · have hxc : x = c :=
          List.inj_on_of_nodup_map hnd hx hc (by rw [hxid, hid])
        subst hxc
        unfold withinDownF withinUpF
        rw [if_pos hxid]
        dsimp only
        rw [if_pos hxid]
        rw [← hl]
      · rcases x with ⟨i0, l0, ti, de, p0, pr, du⟩
        have hxid2 : ¬ i0 = cid := hxid
        have hpne2 : l0 = lid → p0 ≠ c.position := fun hll =>
          hpne ⟨i0, l0, ti, de, p0, pr, du⟩ hx hll hxid
        unfold withinDownF withinUpF
        dsimp only
        rw [if_neg hxid2]
        by_cases hsh : l0 = lid ∧ c.position < p0 ∧ p0 ≤ t
        · rw [if_pos hsh]
          dsimp only
          rw [if_neg hxid2]
          rw [if_pos (show l0 = lid ∧ c.position ≤ p0 - 1 ∧ p0 - 1 < t from
            ⟨hsh.1, by omega, by omega⟩)]
          have hp : p0 - 1 + 1 = p0 := by omega
          rw [hp]
        · rw [if_neg hsh]
          have hnot : ¬ (l0 = lid ∧ c.position ≤ p0 ∧ p0 < t) := by
            rintro ⟨hll, hlt, hle⟩
            have hne := hpne2 hll
            exact hsh ⟨hll, by omega, by omega⟩
          rw [if_neg hxid2, if_neg hnot]
    show Except.ok ({ db with cards := (db.cards.map (withinDownF cid lid c.position t)).map (withinUpF cid lid c.position t) } : DB) = .ok db
    rw [List.map_map]
    rw [map_eq_self db.cards (withinUpF cid lid c.position t ∘ withinDownF cid lid c.position t) hcomp]

theorem claim_C6_witness :
    ∃ db1, moveCard dbMove3 12 1 0 = .ok db1 ∧
      moveCard db1 12 1 2 = .ok dbMove3 := by
  exact claim_C6 dbMove3 12 1 0 ⟨12, 1, "C", "", 2, "medium", none⟩ (by decide)
    (by decide) rfl rfl (by decide) (by decide) (by decide) (by decide)

end Kanban
